import Mathlib

/-!
# Verification of the ddPFXSplit session workflow

This file gives a shallow embedding of `src/ddFreeSplit.py` (class
`DDFreeSplitTool`), a Maya tool that duplicates a selected mesh, lets the
user paint strokes on a temporary camera-aligned plane, converts the strokes
to curves, projects them onto the duplicate, splits the duplicate along the
projected curves and cleans up.

Modelling choices (documented once, used throughout):

* The host scene graph is a `Scene`: a list of `Node`s plus the attributes of
  the single model-panel camera (`camOrtho`, `camOrthoWidth`), the current
  selection, attribute connections, and the `splitPolyWithCurveOperation`
  option variable.  The tool only ever works with one camera, so the camera
  attributes are scene-level fields and `Scene.camShape` is its shape name.
* Machine floats of the Python code are modelled as exact rationals.
* `cmds.objExists n` is `objExists`: some node named `n` with `valid = true`.
  A node with `valid = false` models a stale handle: it is still enumerated
  by `cmds.ls` (the tool re-checks existence per stroke exactly because such
  handles can occur) but fails the existence check.
* `cmds.delete n` removes every node named `n` and its direct children
  (the modelled hierarchies are at most two levels deep).
* Host-side effects with no scene-graph footprint (Paint Effects preset
  sourcing, `dynWireCtx`, `MakePaintable`, `tumbleCtx`, the actual
  `polyProjectCurve` / `performSplitMeshWithProjectedCurve` geometry work,
  construction-history contents, the Qt window) are modelled as log events
  or as the boolean scene fields `paintPresetLoaded` / `wireConfigured`;
  node creation performed by those operators (the `curveVarGroup` container
  of each projection) is modelled as node creation.
* Fallible optional host calls are parameters: `Option` UI query results
  (`none` = the query raised and the `except: pass` fallback fired) and
  success booleans for the preset / tool-context configuration.
* Python truthiness of an optional string field (`if self.temp_plane:`) is
  `truthy`.
-/

namespace DDSplit

inductive NodeType where
  | transform
  | mesh
  | stroke
  | curveVarGroup
  | nurbsCurve
  | cameraShape
deriving DecidableEq, Repr

/-- World bounding box as returned by `cmds.exactWorldBoundingBox`:
`[xmin, ymin, zmin, xmax, ymax, zmax]`. -/
structure Bbox where
  xmin : ℚ := 0
  ymin : ℚ := 0
  zmin : ℚ := 0
  xmax : ℚ := 0
  ymax : ℚ := 0
  zmax : ℚ := 0
deriving DecidableEq, Repr

/-- One scene-graph node.  `width`/`height` model the `polyPlane` dimensions,
`closedCurve` the `sweep=360` closedness of a `cmds.circle` result. -/
structure Node where
  name : String
  ntype : NodeType
  parent : Option String := none
  visible : Bool := true
  valid : Bool := true
  bbox : Bbox := {}
  width : ℚ := 0
  height : ℚ := 0
  closedCurve : Bool := false
deriving DecidableEq, Repr

structure Scene where
  nodes : List Node
  camName : String := "persp"
  camShape : String := "perspShape"
  camOrtho : Bool := false
  camOrthoWidth : ℚ := 30
  selection : List String := []
  connections : List (String × String) := []
  splitOpVar : Option Nat := none
  paintPresetLoaded : Bool := false
  wireConfigured : Bool := false
deriving DecidableEq, Repr

/-- `self.original_camera_state` (lines 194-199 of the source). -/
structure SavedCam where
  camera : String
  camera_shape : String
  orthographic : Bool
  orthographicWidth : ℚ
deriving DecidableEq, Repr

/-- The mutable instance fields of `DDFreeSplitTool` that touch the scene. -/
structure Session where
  target_geo : Option String := none
  duplicated_geo : Option String := none
  temp_plane : Option String := none
  projection_curve : Option String := none
  projection_curves : List String := []
  pfx_stroke : Option String := none
  original_camera_state : Option SavedCam := none
deriving DecidableEq, Repr

/-- Observable host calls: warnings, node deletions, construction-history
deletion, circle creation, `polyProjectCurve` and the split command. -/
inductive Event where
  | warn (msg : String)
  | deleteNode (name : String)
  | deleteHistory (name : String)
  | createCircle (name : String)
  | projCall (curve target : String) (curveSamples : Nat) (tolerance : ℚ)
      (pointsOnEdges automatic : Bool)
  | splitCall (selection : List String) (opVar : Nat)
deriving DecidableEq, Repr

structure World where
  scene : Scene
  session : Session
  log : List Event := []
deriving DecidableEq, Repr

/-- Projection parameters read from the UI (lines 341-352). -/
structure ProjSettings where
  curveSamples : Nat
  tolerance : ℚ
  pointsOnEdges : Bool
  automatic : Bool
deriving DecidableEq, Repr

/-! ## Scene primitives -/

def strStartsWith (s p : String) : Bool := decide (p.data <+: s.data)

def strEndsWith (s p : String) : Bool := decide (p.data <:+ s.data)

/-- Python truthiness of an optional string instance field. -/
def truthy : Option String → Bool
  | none => false
  | some s => !s.data.isEmpty

def objExistsN (nodes : List Node) (n : String) : Bool :=
  nodes.any fun nd => decide (nd.name = n) && nd.valid

/-- `cmds.objExists`. -/
def objExists (sc : Scene) (n : String) : Bool := objExistsN sc.nodes n

/-- `cmds.delete n`: removes every node named `n` together with its direct
children. -/
def deleteN (nodes : List Node) (n : String) : List Node :=
  nodes.filter fun nd => !(decide (nd.name = n) || decide (nd.parent = some n))

def sceneDelete (sc : Scene) (n : String) : Scene :=
  { sc with nodes := deleteN sc.nodes n }

def addNode (sc : Scene) (nd : Node) : Scene :=
  { sc with nodes := sc.nodes ++ [nd] }

def findNode (sc : Scene) (n : String) : Option Node :=
  sc.nodes.find? fun nd => decide (nd.name = n)

/-- `cmds.hide` / `cmds.showHidden` on a single node name. -/
def setNodeVis (sc : Scene) (n : String) (v : Bool) : Scene :=
  { sc with nodes := sc.nodes.map fun nd =>
      if nd.name = n then { nd with visible := v } else nd }

/-- `cmds.ls(type=...)`: every registered node of the type, in scene order. -/
def lsType (sc : Scene) (t : NodeType) : List String :=
  (sc.nodes.filter fun nd => decide (nd.ntype = t)).map Node.name

/-- `cmds.ls(selection=True, type="transform")`. -/
def lsSelTransforms (sc : Scene) : List String :=
  sc.selection.filter fun n =>
    match findNode sc n with
    | some nd => decide (nd.ntype = NodeType.transform)
    | none => false

/-- `cmds.listRelatives(n, parent=True)`. -/
def parentOf (sc : Scene) (n : String) : Option String :=
  match findNode sc n with
  | some nd => nd.parent
  | none => none

def warnW (w : World) (msg : String) : World :=
  { w with log := w.log ++ [Event.warn msg] }

/-- A single guarded delete: `if cmds.objExists(n): cmds.delete(n)`.
Every delete in the source follows this pattern. -/
def guardedDelete (w : World) (n : String) : World :=
  if objExists w.scene n then
    { w with scene := sceneDelete w.scene n, log := w.log ++ [Event.deleteNode n] }
  else w

/-- A sequence of guarded deletes, as performed by the cleanup loops. -/
def guardedDeleteAll : World → List String → World
  | w, [] => w
  | w, n :: ns => guardedDeleteAll (guardedDelete w n) ns

/-- Python's `enumerate`. -/
def withIdx : Nat → List α → List (Nat × α)
  | _, [] => []
  | n, a :: as => (n, a) :: withIdx (n + 1) as

/-- `"{:02d}".format` for the indices used by the tool. -/
def pad2 (n : Nat) : String := if n < 10 then "0" ++ toString n else toString n

/-! ## The tool's operations, translated line by line from the source -/

/-- `setup_geometry` (lines 151-170): requires a non-empty transform
selection; duplicates the first selected transform as `<name>_split`
(transform plus a mesh shape child, copying the transform's attributes) and
hides the original.  The `cmds.text` status update touches only the UI. -/
def setup_geometry (w : World) : World :=
  match lsSelTransforms w.scene with
  | [] => warnW w "Please select a geometry object first!"
  | t :: _ =>
    let dup := t ++ "_split"
    let base := (findNode w.scene t).getD { name := t, ntype := NodeType.transform }
    let sc0 := addNode w.scene { base with name := dup, visible := true, valid := true }
    let sc1 := addNode sc0 { name := dup ++ "Shape", ntype := NodeType.mesh, parent := some dup }
    let sc2 := setNodeVis sc1 t false
    { w with scene := sc2,
             session := { w.session with target_geo := some t, duplicated_geo := some dup } }

/-- `setup_orthographic_camera` (lines 182-211): snapshots the camera state,
computes the orthographic width as `max` of the three world-bounding-box
extents of the target times `1.5`, and switches the camera to orthographic.
The panel lookup resolves to the scene's single camera; the `tumbleCtx`
edits have no scene-graph footprint. -/
def setup_orthographic_camera (w : World) : World :=
  let camera := w.scene.camName
  let camera_shape := w.scene.camShape
  let saved : SavedCam :=
    { camera := camera, camera_shape := camera_shape,
      orthographic := w.scene.camOrtho, orthographicWidth := w.scene.camOrthoWidth }
  let b := ((findNode w.scene (w.session.target_geo.getD "")).getD
      { name := "", ntype := NodeType.transform }).bbox
  let width := max (b.xmax - b.xmin) (max (b.ymax - b.ymin) (b.zmax - b.zmin)) * (3 / 2)
  { w with
      scene := { w.scene with camOrtho := true, camOrthoWidth := width },
      session := { w.session with original_camera_state := some saved } }

/-- `create_temporary_plane` (lines 213-246): creates the hidden
`ddSplit_tempPlane` sized by the current orthographic width, wires the
camera's `orthographicWidth` into the plane creation node's dimensions,
and parents the plane to the camera.  Display-override attributes and the
fixed transform offsets have no bearing on the claims and are not recorded
beyond `visible := false`. -/
def create_temporary_plane (w : World) : World :=
  match w.session.original_camera_state with
  | none => w
  | some st =>
    let ow := w.scene.camOrthoWidth
    let plane : Node :=
      { name := "ddSplit_tempPlane", ntype := NodeType.transform,
        parent := some st.camera, visible := false, width := ow, height := ow }
    let sc0 := addNode w.scene plane
    let sc1 := { sc0 with connections := sc0.connections ++
        [(st.camera_shape ++ ".orthographicWidth", "polyPlane1.width"),
         (st.camera_shape ++ ".orthographicWidth", "polyPlane1.height")] }
    { w with scene := sc1, session := { w.session with temp_plane := some "ddSplit_tempPlane" } }

/-- `activate_paint_effects` (lines 248-277): all three host calls are
wrapped in `try/except: pass`.  A successful preset source / `dynWireCtx`
edit sets the corresponding scene flag; `MakePaintable` has no scene-graph
footprint at all, but the `cmds.select(self.temp_plane)` preceding it is
unconditional (given a truthy `temp_plane`). -/
def activate_paint_effects (w : World) (presetOk wireOk : Bool) : World :=
  let sc0 := if presetOk then { w.scene with paintPresetLoaded := true } else w.scene
  let sc1 := if wireOk then { sc0 with wireConfigured := true } else sc0
  let sc2 := if truthy w.session.temp_plane
             then { sc1 with selection := [w.session.temp_plane.getD ""] }
             else sc1
  { w with scene := sc2 }

/-- `activate_paint_tool` (lines 172-180). -/
def activate_paint_tool (w : World) (presetOk wireOk : Bool) : World :=
  if !truthy w.session.target_geo then warnW w "Please setup geometry first!"
  else
    activate_paint_effects (create_temporary_plane (setup_orthographic_camera w)) presetOk wireOk

/-- The user painting one stroke on the plane: a stroke shape under a new
transform.  This is a user action, not a method of the tool. -/
def paintStroke (w : World) (tname sname : String) : World :=
  let t : Node := { name := tname, ntype := NodeType.transform }
  let s : Node := { name := sname, ntype := NodeType.stroke, parent := some tname }
  { w with scene := addNode (addNode w.scene t) s }

/-- The validity check of the per-stroke loop (line 306):
`stroke_shape and cmds.objExists(stroke_shape)`. -/
def strokeOk (sc : Scene) (s : String) : Bool := !s.data.isEmpty && objExists sc s

/-- One iteration of the stroke loop of `convert_and_project`
(lines 304-331): skip invalid strokes with a warning; otherwise create the
closed circle `projCurve_{i+1:02d}` (transform plus closed nurbsCurve
shape), record it in `self.projection_curves` and connect the stroke's
`outMainCurves[0]` into the circle shape's `create` input.  The local
`pfx_stroke` variable of the loop shadows and never writes the instance
field, so the session is not updated with the stroke transform. -/
def convertStroke (w : World) (i : Nat) (stroke_shape : String) : World :=
  if stroke_shape.data.isEmpty || !objExists w.scene stroke_shape then
    warnW w ("Paint Effects stroke " ++ toString (i + 1) ++ " is invalid - skipping!")
  else
    let cname := "projCurve_" ++ pad2 (i + 1)
    let sc0 := addNode w.scene { name := cname, ntype := NodeType.transform }
    let sc1 := addNode sc0 { name := cname ++ "Shape", ntype := NodeType.nurbsCurve,
                             parent := some cname, closedCurve := true }
    let sc2 := { sc1 with connections := sc1.connections ++
        [(stroke_shape ++ ".outMainCurves[0]", cname ++ "Shape.create")] }
    { w with scene := sc2,
             session := { w.session with
                projection_curves := w.session.projection_curves ++ [cname] },
             log := w.log ++ [Event.createCircle cname] }

def convertStrokes : World → List (Nat × String) → World
  | w, [] => w
  | w, (i, s) :: rest => convertStrokes (convertStroke w i s) rest

/-- One `cmds.polyProjectCurve` call (lines 357-370): records the call with
its parameters and creates the resulting `curveVarGroup` container node.
The result list is only bound to the local `projected_curve_groups`, so the
session does not track the group. -/
def projectOne (w : World) (s : ProjSettings) (c : String) : World :=
  let target := w.session.duplicated_geo.getD ""
  { w with
      scene := addNode w.scene { name := c ++ "_varGroup", ntype := NodeType.curveVarGroup },
      log := w.log ++ [Event.projCall c target s.curveSamples s.tolerance
                        s.pointsOnEdges s.automatic] }

def projectAll (w : World) (cs : List String) (s : ProjSettings) : World :=
  cs.foldl (fun acc c => projectOne acc s c) w

/-- The built-in projection defaults of lines 341-344. -/
def defaultProj : ProjSettings :=
  { curveSamples := 50, tolerance := 1 / 1000, pointsOnEdges := false, automatic := true }

/-- `convert_and_project` (lines 293-375).  `ui = none` models the UI query
`try` block raising (fall back to `defaultProj`).  A missing or deleted
`self.duplicated_geo` makes the first `polyProjectCurve` raise, which the
outer `try` turns into a single `Projection failed` warning with no
projection performed. -/
def convert_and_project (w : World) (ui : Option ProjSettings) : World :=
  let strokes := lsType w.scene NodeType.stroke
  if strokes.isEmpty then warnW w "No Paint Effects stroke found!"
  else
    let w0 := { w with session := { w.session with projection_curves := [] } }
    let w1 := convertStrokes w0 (withIdx 0 strokes)
    let w2 := if w1.session.projection_curves.isEmpty then w1
              else { w1 with session := { w1.session with
                        projection_curve := some (w1.session.projection_curves.headD "") } }
    if !w2.session.projection_curves.isEmpty then
      let s := ui.getD defaultProj
      if truthy w2.session.duplicated_geo &&
          objExists w2.scene (w2.session.duplicated_geo.getD "") then
        projectAll w2 w2.session.projection_curves s
      else warnW w2 "Projection failed: invalid target geometry"
    else warnW w2 "No valid projection curves created!"

/-- `execute_split` (lines 377-407): requires at least one `curveVarGroup`;
sets the `splitPolyWithCurveOperation` option variable (`2` = detach,
`1` = keep together) from the `detachEdges` checkbox (default `True` when
the query raises), selects all groups plus the duplicated geometry and runs
`performSplitMeshWithProjectedCurve` once.  If `self.duplicated_geo` is
unset or gone, `cmds.select(..., add=True)` raises inside the `try` and
only the `Split failed` warning is emitted. -/
def execute_split (w : World) (uiDetach : Option Bool) : World :=
  let curve_groups := lsType w.scene NodeType.curveVarGroup
  if curve_groups.isEmpty then warnW w "No projected curve found!"
  else
    let detach_edges := uiDetach.getD true
    let opv : Nat := if detach_edges then 2 else 1
    let sc0 := { w.scene with splitOpVar := some opv }
    let sc1 := { sc0 with selection := curve_groups }
    if truthy w.session.duplicated_geo &&
        objExists sc1 (w.session.duplicated_geo.getD "") then
      let sel := curve_groups ++ [w.session.duplicated_geo.getD ""]
      { w with scene := { sc1 with selection := sel },
               log := w.log ++ [Event.splitCall sel opv] }
    else warnW { w with scene := sc1 } "Split failed: invalid target geometry"

/-- `restore_camera_state` (lines 500-513): no-op on an empty snapshot;
otherwise restores the saved orthographic attributes provided the saved
camera shape still exists.  The `tumbleCtx` edits have no scene-graph
footprint. -/
def restore_camera_state (w : World) : World :=
  match w.session.original_camera_state with
  | none => w
  | some st =>
    if !st.camera_shape.data.isEmpty && objExists w.scene st.camera_shape then
      { w with scene := { w.scene with
          camOrtho := st.orthographic, camOrthoWidth := st.orthographicWidth } }
    else w

/-- The `split_groups` query of line 421: every transform whose name ends
in `_split`. -/
def splitGroups (sc : Scene) : List String :=
  (lsType sc NodeType.transform).filter fun n => strEndsWith n "_split"

/-- The `pfx_transforms` collection of lines 425-430. -/
def pfxTransforms (sc : Scene) : List String :=
  (lsType sc NodeType.stroke).filterMap fun s =>
    if objExists sc s then parentOf sc s else none

/-- The `projection_curves` cleanup set of lines 433-438. -/
def trackedCurves (sc : Scene) (ss : Session) : List String :=
  if !ss.projection_curves.isEmpty then ss.projection_curves.filter fun c => objExists sc c
  else if truthy ss.projection_curve && objExists sc (ss.projection_curve.getD "") then
    [ss.projection_curve.getD ""]
  else []

/-- The full sequence of guarded delete calls issued by `finish_and_cleanup`
(lines 446-478), in source order. -/
def finishDels (sc : Scene) (ss : Session) (keep : Bool) : List String :=
  splitGroups sc ++ lsType sc NodeType.stroke ++ pfxTransforms sc ++ trackedCurves sc ss
    ++ (if keep then [] else lsType sc NodeType.curveVarGroup)
    ++ (if truthy ss.temp_plane then [ss.temp_plane.getD ""] else [])

/-- Lines 443-444: `cmds.delete(self.duplicated_geo, constructionHistory=True)`
guarded by existence; only the history event is observable, the node stays. -/
def historyStep (w : World) : World :=
  if truthy w.session.duplicated_geo && objExists w.scene (w.session.duplicated_geo.getD "") then
    { w with log := w.log ++ [Event.deleteHistory (w.session.duplicated_geo.getD "")] }
  else w

/-- `finish_and_cleanup` (lines 409-485): restores the camera, computes all
cleanup sets from the scene and session up front, emits the
construction-history delete on the duplicated geometry, then runs the
guarded delete loops in source order: `_split`-suffixed transforms, stroke
shapes, stroke parent transforms, the tracked reference curves, the
`curveVarGroup`s (unless `keepHistory` is checked; default `False` when
the query raises) and finally the temporary plane.  The GUI teardown has
no scene-graph footprint. -/
def finish_and_cleanup (w : World) (uiKeep : Option Bool) : World :=
  let w1 := restore_camera_state w
  guardedDeleteAll (historyStep w1) (finishDels w1.scene w1.session (uiKeep.getD false))

/-- The guarded delete calls issued by `cancel_operation` (lines 491-494). -/
def cancelDels (ss : Session) : List String :=
  (if truthy ss.duplicated_geo then [ss.duplicated_geo.getD ""] else [])
    ++ (if truthy ss.temp_plane then [ss.temp_plane.getD ""] else [])

/-- `cancel_operation` (lines 487-498): restores the camera, guardedly
deletes the duplicated geometry and the temporary plane, and re-shows the
original geometry.  The GUI teardown has no scene-graph footprint. -/
def cancel_operation (w : World) : World :=
  let w2 := guardedDeleteAll (restore_camera_state w) (cancelDels (restore_camera_state w).session)
  if truthy w2.session.target_geo && objExists w2.scene (w2.session.target_geo.getD "") then
    { w2 with scene := setNodeVis w2.scene (w2.session.target_geo.getD "") true }
  else w2

/-! ## Delete-trace bookkeeping -/

/-- The node names deleted in a trace, in order. -/
def deleteNames (es : List Event) : List String :=
  es.filterMap fun e => match e with | Event.deleteNode n => some n | _ => none

/-- Replays a list of delete calls against a node list: every call must hit
an existing node at its own point in the sequence. -/
def replayOk : List Node → List String → Bool
  | _, [] => true
  | nodes, n :: ns => objExistsN nodes n && replayOk (deleteN nodes n) ns

/-! ## Basic lemmas about the scene primitives -/

theorem objExistsN_iff {nodes : List Node} {n : String} :
    objExistsN nodes n = true ↔ ∃ nd ∈ nodes, nd.name = n ∧ nd.valid = true := by
  simp [objExistsN, List.any_eq_true, Bool.and_eq_true]

theorem mem_deleteN {nodes : List Node} {m : String} {nd : Node} :
    nd ∈ deleteN nodes m ↔ nd ∈ nodes ∧ nd.name ≠ m ∧ nd.parent ≠ some m := by
  simp [deleteN, List.mem_filter, not_or]

theorem objExistsN_deleteN_self (nodes : List Node) (n : String) :
    objExistsN (deleteN nodes n) n = false := by
  apply Bool.eq_false_iff.mpr
  intro h
  obtain ⟨nd, hmem, hname, _⟩ := objExistsN_iff.mp h
  exact (mem_deleteN.mp hmem).2.1 hname

theorem objExistsN_of_deleteN {nodes : List Node} {m n : String}
    (h : objExistsN (deleteN nodes m) n = true) : objExistsN nodes n = true := by
  obtain ⟨nd, hmem, hname, hvalid⟩ := objExistsN_iff.mp h
  exact objExistsN_iff.mpr ⟨nd, (mem_deleteN.mp hmem).1, hname, hvalid⟩

theorem objExistsN_deleteN_of_false {nodes : List Node} {m n : String}
    (h : objExistsN nodes n = false) : objExistsN (deleteN nodes m) n = false := by
  apply Bool.eq_false_iff.mpr
  intro hb
  rw [objExistsN_of_deleteN hb] at h
  cases h

theorem objExistsN_append {a b : List Node} {n : String} :
    objExistsN (a ++ b) n = (objExistsN a n || objExistsN b n) := by
  simp [objExistsN, List.any_append]

theorem mem_lsType {sc : Scene} {t : NodeType} {n : String} :
    n ∈ lsType sc t ↔ ∃ nd ∈ sc.nodes, nd.ntype = t ∧ nd.name = n := by
  simp only [lsType, List.mem_map, List.mem_filter, decide_eq_true_eq]
  constructor
  · rintro ⟨nd, ⟨hmem, ht⟩, hname⟩
    exact ⟨nd, hmem, ht, hname⟩
  · rintro ⟨nd, hmem, ht, hname⟩
    exact ⟨nd, ⟨hmem, ht⟩, hname⟩

theorem name_mem_lsType {sc : Scene} {t : NodeType} {nd : Node}
    (hmem : nd ∈ sc.nodes) (ht : nd.ntype = t) : nd.name ∈ lsType sc t :=
  mem_lsType.mpr ⟨nd, hmem, ht, rfl⟩

/-! ## Lemmas about guarded deletion -/

theorem guardedDelete_session (w : World) (n : String) :
    (guardedDelete w n).session = w.session := by
  unfold guardedDelete; split <;> rfl

theorem guardedDelete_camOrtho (w : World) (n : String) :
    (guardedDelete w n).scene.camOrtho = w.scene.camOrtho := by
  unfold guardedDelete; split <;> rfl

theorem guardedDelete_camOrthoWidth (w : World) (n : String) :
    (guardedDelete w n).scene.camOrthoWidth = w.scene.camOrthoWidth := by
  unfold guardedDelete; split <;> rfl

theorem guardedDelete_nodes (w : World) (n : String) :
    (guardedDelete w n).scene.nodes =
      if objExists w.scene n then deleteN w.scene.nodes n else w.scene.nodes := by
  unfold guardedDelete; split <;> simp_all [sceneDelete]

theorem mem_of_mem_guardedDelete {w : World} {n : String} {nd : Node}
    (h : nd ∈ (guardedDelete w n).scene.nodes) : nd ∈ w.scene.nodes := by
  rw [guardedDelete_nodes] at h
  split at h
  · exact (mem_deleteN.mp h).1
  · exact h

theorem objExists_guardedDelete_self (w : World) (n : String) :
    objExists (guardedDelete w n).scene n = false := by
  rw [objExists, guardedDelete_nodes]
  split
  · exact objExistsN_deleteN_self _ _
  · next h => exact Bool.eq_false_iff.mpr h

theorem objExists_guardedDelete_of_false {w : World} {m n : String}
    (h : objExists w.scene n = false) : objExists (guardedDelete w m).scene n = false := by
  rw [objExists, guardedDelete_nodes]
  split
  · exact objExistsN_deleteN_of_false h
  · exact h

theorem mem_guardedDelete_of_root {w : World} {m : String} {nd : Node}
    (hmem : nd ∈ w.scene.nodes) (hp : nd.parent = none) (hne : nd.name ≠ m) :
    nd ∈ (guardedDelete w m).scene.nodes := by
  rw [guardedDelete_nodes]
  split
  · exact mem_deleteN.mpr ⟨hmem, hne, by simp [hp]⟩
  · exact hmem

theorem guardedDeleteAll_session (ns : List String) :
    ∀ w : World, (guardedDeleteAll w ns).session = w.session := by
  induction ns with
  | nil => intro w; rfl
  | cons n ns ih =>
    intro w
    show (guardedDeleteAll (guardedDelete w n) ns).session = w.session
    rw [ih, guardedDelete_session]

theorem guardedDeleteAll_camOrtho (ns : List String) :
    ∀ w : World, (guardedDeleteAll w ns).scene.camOrtho = w.scene.camOrtho := by
  induction ns with
  | nil => intro w; rfl
  | cons n ns ih =>
    intro w
    show (guardedDeleteAll (guardedDelete w n) ns).scene.camOrtho = w.scene.camOrtho
    rw [ih, guardedDelete_camOrtho]

theorem guardedDeleteAll_camOrthoWidth (ns : List String) :
    ∀ w : World, (guardedDeleteAll w ns).scene.camOrthoWidth = w.scene.camOrthoWidth := by
  induction ns with
  | nil => intro w; rfl
  | cons n ns ih =>
    intro w
    show (guardedDeleteAll (guardedDelete w n) ns).scene.camOrthoWidth = w.scene.camOrthoWidth
    rw [ih, guardedDelete_camOrthoWidth]

theorem mem_of_mem_guardedDeleteAll (ns : List String) :
    ∀ (w : World) (nd : Node), nd ∈ (guardedDeleteAll w ns).scene.nodes → nd ∈ w.scene.nodes := by
  induction ns with
  | nil => intro w nd h; exact h
  | cons n ns ih =>
    intro w nd h
    exact mem_of_mem_guardedDelete (ih (guardedDelete w n) nd h)

theorem objExists_guardedDeleteAll_of_false (ns : List String) :
    ∀ {w : World} {n : String}, objExists w.scene n = false →
      objExists (guardedDeleteAll w ns).scene n = false := by
  induction ns with
  | nil => intro w n h; exact h
  | cons m ns ih => intro w n h; exact ih (objExists_guardedDelete_of_false h)

theorem objExists_guardedDeleteAll_of_mem (ns : List String) :
    ∀ {w : World} {n : String}, n ∈ ns →
      objExists (guardedDeleteAll w ns).scene n = false := by
  induction ns with
  | nil => intro w n h; cases h
  | cons m ns ih =>
    intro w n h
    rcases List.mem_cons.mp h with h | h
    · subst h
      exact objExists_guardedDeleteAll_of_false ns (objExists_guardedDelete_self w n)
    · exact ih h

theorem mem_guardedDeleteAll_of_root (ns : List String) :
    ∀ {w : World} {nd : Node}, nd ∈ w.scene.nodes → nd.parent = none → nd.name ∉ ns →
      nd ∈ (guardedDeleteAll w ns).scene.nodes := by
  induction ns with
  | nil => intro w nd h _ _; exact h
  | cons m ns ih =>
    intro w nd hmem hp hnin
    exact ih (mem_guardedDelete_of_root hmem hp fun he => hnin (by simp [he]))
      hp fun he => hnin (List.mem_cons_of_mem _ he)

theorem guardedDelete_log (w : World) (n : String) :
    (guardedDelete w n).log =
      w.log ++ (if objExists w.scene n then [Event.deleteNode n] else []) := by
  unfold guardedDelete; split <;> simp_all

theorem guardedDelete_nodes_of_true {w : World} {n : String}
    (h : objExists w.scene n = true) :
    (guardedDelete w n).scene.nodes = deleteN w.scene.nodes n := by
  rw [guardedDelete_nodes, if_pos h]

theorem not_mem_of_replayOk {ds : List String} :
    ∀ {nodes : List Node} {n : String}, objExistsN nodes n = false →
      replayOk nodes ds = true → n ∉ ds := by
  induction ds with
  | nil => intro nodes n _ _ h; cases h
  | cons d ds ih =>
    intro nodes n hfalse hrep hmem
    rw [replayOk, Bool.and_eq_true] at hrep
    rcases List.mem_cons.mp hmem with h | h
    · subst h; rw [hrep.1] at hfalse; cases hfalse
    · exact ih (objExistsN_deleteN_of_false hfalse) hrep.2 h

theorem guardedDeleteAll_log_spec (ns : List String) :
    ∀ w : World, ∃ ds : List String,
      (guardedDeleteAll w ns).log = w.log ++ ds.map Event.deleteNode ∧
      replayOk w.scene.nodes ds = true ∧ ds.Nodup := by
  induction ns with
  | nil => intro w; exact ⟨[], by simp [guardedDeleteAll], rfl, List.nodup_nil⟩
  | cons n ns ih =>
    intro w
    have hstep : guardedDeleteAll w (n :: ns) = guardedDeleteAll (guardedDelete w n) ns := rfl
    rw [hstep]
    obtain ⟨ds, hlog, hrep, hnd⟩ := ih (guardedDelete w n)
    by_cases h : objExists w.scene n = true
    · refine ⟨n :: ds, ?_, ?_, ?_⟩
      · rw [hlog, guardedDelete_log, if_pos h]; simp
      · rw [replayOk, Bool.and_eq_true]
        refine ⟨h, ?_⟩
        rw [← guardedDelete_nodes_of_true h]; exact hrep
      · refine List.nodup_cons.mpr ⟨?_, hnd⟩
        apply @not_mem_of_replayOk ds (guardedDelete w n).scene.nodes n
        · rw [guardedDelete_nodes_of_true h]; exact objExistsN_deleteN_self _ _
        · exact hrep
    · rw [Bool.not_eq_true] at h
      refine ⟨ds, ?_, ?_, hnd⟩
      · rw [hlog, guardedDelete_log, h]; simp
      · have : (guardedDelete w n).scene.nodes = w.scene.nodes := by
          rw [guardedDelete_nodes, h]; simp
        rw [← this]; exact hrep

theorem deleteNames_append (a b : List Event) :
    deleteNames (a ++ b) = deleteNames a ++ deleteNames b := by
  simp [deleteNames]

theorem deleteNames_map_deleteNode (ds : List String) :
    deleteNames (ds.map Event.deleteNode) = ds := by
  induction ds with
  | nil => rfl
  | cons d ds ih => simp [deleteNames] at ih ⊢; exact ih

/-- Replaying the delete events that a sequence of guarded deletes emits,
starting from the scene the sequence started from, succeeds at every step,
and no name is ever deleted twice. -/
theorem guardedDeleteAll_discipline (w0 : World) (base : List Event) (pre : List Event)
    (L : List String) (hlog : w0.log = base ++ pre) (hpre : deleteNames pre = []) :
    replayOk w0.scene.nodes
        (deleteNames ((guardedDeleteAll w0 L).log.drop base.length)) = true ∧
      (deleteNames ((guardedDeleteAll w0 L).log.drop base.length)).Nodup := by
  obtain ⟨ds, hl, hrep, hnd⟩ := guardedDeleteAll_log_spec L w0
  have hdrop : (guardedDeleteAll w0 L).log.drop base.length =
      pre ++ ds.map Event.deleteNode := by
    rw [hl, hlog, List.append_assoc, List.drop_left]
  rw [hdrop, deleteNames_append, hpre, List.nil_append, deleteNames_map_deleteNode]
  exact ⟨hrep, hnd⟩

/-! ## Lemmas about `restore_camera_state` -/

theorem restore_camera_state_nodes (w : World) :
    (restore_camera_state w).scene.nodes = w.scene.nodes := by
  unfold restore_camera_state
  split
  · rfl
  · split <;> rfl

theorem restore_camera_state_session (w : World) :
    (restore_camera_state w).session = w.session := by
  unfold restore_camera_state
  split
  · rfl
  · split <;> rfl

theorem restore_camera_state_log (w : World) :
    (restore_camera_state w).log = w.log := by
  unfold restore_camera_state
  split
  · rfl
  · split <;> rfl

theorem restore_camera_state_selection (w : World) :
    (restore_camera_state w).scene.selection = w.scene.selection := by
  unfold restore_camera_state
  split
  · rfl
  · split <;> rfl

/-- When a camera snapshot was taken and its saved shape still exists, the
restore puts back exactly the saved orthographic attributes. -/
theorem restore_camera_state_restores {w : World} {st : SavedCam}
    (hst : w.session.original_camera_state = some st)
    (hne : st.camera_shape ≠ "")
    (hex : objExists w.scene st.camera_shape = true) :
    (restore_camera_state w).scene.camOrtho = st.orthographic ∧
      (restore_camera_state w).scene.camOrthoWidth = st.orthographicWidth := by
  have hdata : st.camera_shape.data ≠ [] := by
    intro h
    exact hne (String.ext (by rw [h]))
  unfold restore_camera_state
  split
  · next heq => rw [hst] at heq; cases heq
  · next st' heq =>
    rw [hst] at heq
    injection heq with heq'
    subst heq'
    rw [if_pos]
    · exact ⟨rfl, rfl⟩
    · rw [Bool.and_eq_true, hex]
      exact ⟨by simp [List.isEmpty_iff, hdata], rfl⟩

/-! ## Lemmas about `historyStep` and the cleanup entry points -/

theorem historyStep_scene (w : World) : (historyStep w).scene = w.scene := by
  unfold historyStep; split <;> rfl

theorem historyStep_session (w : World) : (historyStep w).session = w.session := by
  unfold historyStep; split <;> rfl

theorem historyStep_log (w : World) :
    ∃ pre : List Event, (historyStep w).log = w.log ++ pre ∧ deleteNames pre = [] := by
  unfold historyStep
  split
  · exact ⟨[Event.deleteHistory (w.session.duplicated_geo.getD "")], rfl, rfl⟩
  · exact ⟨[], by simp, rfl⟩

theorem cancel_operation_log (w : World) :
    (cancel_operation w).log =
      (guardedDeleteAll (restore_camera_state w)
        (cancelDels (restore_camera_state w).session)).log := by
  unfold cancel_operation
  simp only []
  split <;> rfl

/-! ## Which nodes the session tracks -/

/-- A node name is tracked by the session when one of the instance fields
of `DDFreeSplitTool` references it. -/
def sessionTracked (w : World) (n : String) : Bool :=
  decide (w.session.target_geo = some n) || decide (w.session.duplicated_geo = some n) ||
    decide (w.session.temp_plane = some n) || decide (w.session.projection_curve = some n) ||
    decide (w.session.pfx_stroke = some n) || decide (n ∈ w.session.projection_curves)

/-! ## A concrete session run

`demoW0` is a fresh scene holding one camera and one selected cube of world
bounding box `[0,0,0] - [2,1,1]`; the pipeline runs Setup, Paint Activation,
one user-painted stroke and Conversion. -/

def demoScene0 : Scene :=
  { nodes := [
      { name := "persp", ntype := NodeType.transform },
      { name := "perspShape", ntype := NodeType.cameraShape, parent := some "persp" },
      { name := "pCube1", ntype := NodeType.transform,
        bbox := { xmin := 0, ymin := 0, zmin := 0, xmax := 2, ymax := 1, zmax := 1 } },
      { name := "pCube1Shape", ntype := NodeType.mesh, parent := some "pCube1" }],
    selection := ["pCube1"] }

def demoW0 : World := { scene := demoScene0, session := {}, log := [] }

def demoW1 : World := setup_geometry demoW0

def demoW2 : World := activate_paint_tool demoW1 true true

def demoW3 : World := paintStroke demoW2 "strokeDefaultPaint1" "strokeShapeDefaultPaint1"

def demoW4 : World := convert_and_project demoW3 none

/-! ## Claim C4 -/

/-- **C4, counterexample.**  The claim says every node created during the
Setup/Paint/Conversion stages is tracked in the session object's state.  In
the demo run, Conversion creates the `curveVarGroup` container
`projCurve_01_varGroup` (it does not exist before `convert_and_project` and
exists afterwards), yet no session field references it: the source binds
the `polyProjectCurve` results only to the local `projected_curve_groups`
(line 370), never to `self`. -/
theorem untracked_varGroup_counterexample :
    objExists demoW3.scene "projCurve_01_varGroup" = false ∧
      objExists demoW4.scene "projCurve_01_varGroup" = true ∧
      sessionTracked demoW4 "projCurve_01_varGroup" = false := by
  decide

/-- **C4, amended.**  The delete discipline does hold: in every invocation
of `finish_and_cleanup` and of `cancel_operation`, replaying the emitted
delete calls against the initial scene finds each targeted node existing at
its own point in the sequence (every delete is guarded by an existence
check), and no name is deleted twice. -/
theorem delete_discipline (w : World) (uiKeep : Option Bool) :
    (replayOk w.scene.nodes
        (deleteNames ((finish_and_cleanup w uiKeep).log.drop w.log.length)) = true ∧
      (deleteNames ((finish_and_cleanup w uiKeep).log.drop w.log.length)).Nodup) ∧
    (replayOk w.scene.nodes
        (deleteNames ((cancel_operation w).log.drop w.log.length)) = true ∧
      (deleteNames ((cancel_operation w).log.drop w.log.length)).Nodup) := by
  constructor
  · obtain ⟨pre, hlog, hpre⟩ := historyStep_log (restore_camera_state w)
    have h := guardedDeleteAll_discipline (historyStep (restore_camera_state w)) w.log pre
      (finishDels (restore_camera_state w).scene (restore_camera_state w).session
        (uiKeep.getD false))
      (by rw [hlog, restore_camera_state_log]) hpre
    have hnodes : (historyStep (restore_camera_state w)).scene.nodes = w.scene.nodes := by
      rw [historyStep_scene, restore_camera_state_nodes]
    rw [hnodes] at h
    exact h
  · have h := guardedDeleteAll_discipline (restore_camera_state w) w.log []
      (cancelDels (restore_camera_state w).session)
      (by rw [restore_camera_state_log, List.append_nil]) rfl
    rw [restore_camera_state_nodes] at h
    rw [cancel_operation_log]
    exact h

/-! ## Claim C7 -/

/-- **C7.**  `finish_and_cleanup` always calls `restore_camera_state`
first, so with a snapshot taken and the saved camera shape still present
the orthographic attributes end up at their saved values; and the cleanup
only ever removes nodes — every node of the resulting scene is literally a
node of the initial scene, so the hidden original's visibility (like every
other attribute of every surviving node) is unchanged: Finish never
re-shows the original geometry. -/
theorem finish_restores_camera_only_removes (w : World) (uiKeep : Option Bool)
    (st : SavedCam)
    (hst : w.session.original_camera_state = some st)
    (hne : st.camera_shape ≠ "")
    (hex : objExists w.scene st.camera_shape = true) :
    (finish_and_cleanup w uiKeep).scene.camOrtho = st.orthographic ∧
      (finish_and_cleanup w uiKeep).scene.camOrthoWidth = st.orthographicWidth ∧
      ∀ nd ∈ (finish_and_cleanup w uiKeep).scene.nodes, nd ∈ w.scene.nodes := by
  have hrest := restore_camera_state_restores hst hne hex
  have hsc := historyStep_scene (restore_camera_state w)
  refine ⟨?_, ?_, ?_⟩
  · rw [finish_and_cleanup, guardedDeleteAll_camOrtho, hsc, hrest.1]
  · rw [finish_and_cleanup, guardedDeleteAll_camOrthoWidth, hsc, hrest.2]
  · intro nd hnd
    rw [finish_and_cleanup] at hnd
    have := mem_of_mem_guardedDeleteAll _ _ _ hnd
    rw [hsc, restore_camera_state_nodes] at this
    exact this

/-- **C7, witness.**  The camera-restore conjuncts instantiated on the demo
run: the snapshot taken at Paint Activation was orthographic `false` with
width `30`, and Finish puts both back. -/
theorem finish_restores_camera_witness :
    demoW4.session.original_camera_state =
        some { camera := "persp", camera_shape := "perspShape",
               orthographic := false, orthographicWidth := 30 } ∧
      (finish_and_cleanup demoW4 none).scene.camOrtho = false ∧
      (finish_and_cleanup demoW4 none).scene.camOrthoWidth = 30 := by
  have h := finish_restores_camera_only_removes demoW4 none
    { camera := "persp", camera_shape := "perspShape",
      orthographic := false, orthographicWidth := 30 }
    (by decide) (by decide) (by decide)
  exact ⟨by decide, h.1, h.2.1⟩

/-! ## Claim C1 -/

theorem objExistsN_map_of_preserve {l : List Node} {f : Node → Node}
    (h : ∀ nd, (f nd).name = nd.name ∧ (f nd).valid = nd.valid) (m : String) :
    objExistsN (l.map f) m = objExistsN l m := by
  induction l with
  | nil => rfl
  | cons a l ih =>
    simp only [List.map_cons, objExistsN, List.any_cons] at ih ⊢
    rw [(h a).1, (h a).2, ih]

theorem objExists_setNodeVis (sc : Scene) (n : String) (v : Bool) (m : String) :
    objExists (setNodeVis sc n v) m = objExists sc m := by
  apply objExistsN_map_of_preserve
  intro nd
  by_cases h : nd.name = n
  · rw [if_pos h]; exact ⟨rfl, rfl⟩
  · rw [if_neg h]; exact ⟨rfl, rfl⟩

theorem setNodeVis_visible {sc : Scene} {g : String} {v : Bool} {nd : Node}
    (h : nd ∈ (setNodeVis sc g v).nodes) (hname : nd.name = g) : nd.visible = v := by
  simp only [setNodeVis, List.mem_map] at h
  obtain ⟨m, _, hm⟩ := h
  by_cases hmg : m.name = g
  · rw [if_pos hmg] at hm; rw [← hm]
  · rw [if_neg hmg] at hm; rw [← hm] at hname; exact absurd hname hmg

theorem cancel_operation_objExists (w : World) (m : String) :
    objExists (cancel_operation w).scene m =
      objExists (guardedDeleteAll (restore_camera_state w)
        (cancelDels (restore_camera_state w).session)).scene m := by
  unfold cancel_operation
  simp only []
  split
  · exact objExists_setNodeVis _ _ _ _
  · rfl

theorem cancel_operation_camOrtho (w : World) :
    (cancel_operation w).scene.camOrtho = (restore_camera_state w).scene.camOrtho := by
  unfold cancel_operation
  simp only []
  split
  · exact guardedDeleteAll_camOrtho _ _
  · exact guardedDeleteAll_camOrtho _ _

theorem cancel_operation_camOrthoWidth (w : World) :
    (cancel_operation w).scene.camOrthoWidth =
      (restore_camera_state w).scene.camOrthoWidth := by
  unfold cancel_operation
  simp only []
  split
  · exact guardedDeleteAll_camOrthoWidth _ _
  · exact guardedDeleteAll_camOrthoWidth _ _

/-- **C1, counterexample.**  After the demo session is cancelled from the
Projected stage, the reference curve `projCurve_01`, the paint stroke and
the projection's `curveVarGroup` — all of them created during the session,
none present in the initial scene — are still in the scene:
`cancel_operation` (lines 487-498) only deletes the duplicated geometry
and the temporary plane.  This refutes "no node created by the session
during any stage remains in the scene". -/
theorem cancel_leftovers_counterexample :
    objExists demoW0.scene "projCurve_01" = false ∧
      objExists demoW0.scene "strokeShapeDefaultPaint1" = false ∧
      objExists demoW0.scene "projCurve_01_varGroup" = false ∧
      objExists (cancel_operation demoW4).scene "projCurve_01" = true ∧
      objExists (cancel_operation demoW4).scene "strokeShapeDefaultPaint1" = true ∧
      objExists (cancel_operation demoW4).scene "projCurve_01_varGroup" = true := by
  decide

/-- **C1, amended.**  Cancel restores the camera attributes captured at
Paint Activation (provided the saved camera shape still exists), deletes
the duplicated geometry and the temporary plane, and re-shows the original
geometry; every other root node survives — in particular the reference
curves, paint strokes and curve-variation groups are *not* removed. -/
theorem cancel_spec (w : World) (st : SavedCam)
    (hst : w.session.original_camera_state = some st)
    (hne : st.camera_shape ≠ "")
    (hex : objExists w.scene st.camera_shape = true) :
    (cancel_operation w).scene.camOrtho = st.orthographic ∧
      (cancel_operation w).scene.camOrthoWidth = st.orthographicWidth ∧
      (truthy w.session.duplicated_geo = true →
        objExists (cancel_operation w).scene (w.session.duplicated_geo.getD "") = false) ∧
      (truthy w.session.temp_plane = true →
        objExists (cancel_operation w).scene (w.session.temp_plane.getD "") = false) ∧
      (∀ g, w.session.target_geo = some g → g ≠ "" →
        ∀ nd ∈ (cancel_operation w).scene.nodes,
          nd.name = g → nd.valid = true → nd.visible = true) ∧
      (∀ nd ∈ w.scene.nodes, nd.parent = none → nd.valid = true →
        nd.name ≠ w.session.duplicated_geo.getD "" →
        nd.name ≠ w.session.temp_plane.getD "" →
        objExists (cancel_operation w).scene nd.name = true) := by
  have hses : (restore_camera_state w).session = w.session := restore_camera_state_session w
  have hmemDels : ∀ m, m ∈ cancelDels w.session →
      m = w.session.duplicated_geo.getD "" ∨ m = w.session.temp_plane.getD "" := by
    intro m hm
    rw [cancelDels] at hm
    rcases List.mem_append.mp hm with h | h
    · left
      split at h
      · exact List.mem_singleton.mp h
      · cases h
    · right
      split at h
      · exact List.mem_singleton.mp h
      · cases h
  have hrest := restore_camera_state_restores hst hne hex
  refine ⟨?_, ?_, ?_, ?_, ?_, ?_⟩
  · rw [cancel_operation_camOrtho, hrest.1]
  · rw [cancel_operation_camOrthoWidth, hrest.2]
  · intro ht
    rw [cancel_operation_objExists]
    apply objExists_guardedDeleteAll_of_mem
    rw [hses, cancelDels]
    apply List.mem_append.mpr
    left
    rw [if_pos ht]
    exact List.mem_singleton.mpr rfl
  · intro ht
    rw [cancel_operation_objExists]
    apply objExists_guardedDeleteAll_of_mem
    rw [hses, cancelDels]
    apply List.mem_append.mpr
    right
    rw [if_pos ht]
    exact List.mem_singleton.mpr rfl
  · intro g hg hgne nd hnd hname hvalid
    rw [cancel_operation] at hnd
    split at hnd
    · exact setNodeVis_visible (by
        rw [guardedDeleteAll_session, hses, hg] at hnd
        exact hnd) hname
    · next hcond =>
      exfalso
      rw [hses] at hnd
      apply hcond
      rw [Bool.and_eq_true, guardedDeleteAll_session, hses, hg]
      constructor
      · rw [truthy]
        simp [List.isEmpty_iff]
        intro hdata
        exact hgne (String.ext (by rw [hdata]))
      · rw [Option.getD]
        exact objExistsN_iff.mpr ⟨nd, hnd, hname, hvalid⟩
  · intro nd hnd hroot hvalid hne1 hne2
    rw [cancel_operation_objExists]
    have hmem : nd ∈ (guardedDeleteAll (restore_camera_state w)
        (cancelDels (restore_camera_state w).session)).scene.nodes := by
      apply mem_guardedDeleteAll_of_root
      · rw [restore_camera_state_nodes]; exact hnd
      · exact hroot
      · rw [hses]
        intro hmemd
        rcases hmemDels nd.name hmemd with h | h
        · exact hne1 h
        · exact hne2 h
    exact objExistsN_iff.mpr ⟨nd, hmem, rfl, hvalid⟩

/-- **C1, amended, witness.**  Instantiated on the demo run cancelled from
the Projected stage: camera restored to `(false, 30)`, duplicate and plane
gone. -/
theorem cancel_spec_witness :
    demoW4.session.original_camera_state =
        some { camera := "persp", camera_shape := "perspShape",
               orthographic := false, orthographicWidth := 30 } ∧
      (cancel_operation demoW4).scene.camOrtho = false ∧
      (cancel_operation demoW4).scene.camOrthoWidth = 30 ∧
      objExists (cancel_operation demoW4).scene
        (demoW4.session.duplicated_geo.getD "") = false ∧
      objExists (cancel_operation demoW4).scene
        (demoW4.session.temp_plane.getD "") = false := by
  have h := cancel_spec demoW4
    { camera := "persp", camera_shape := "perspShape",
      orthographic := false, orthographicWidth := 30 }
    (by decide) (by decide) (by decide)
  exact ⟨by decide, h.1, h.2.1, h.2.2.1 (by decide), h.2.2.2.1 (by decide)⟩

/-! ## Claim C5 -/

theorem truthy_some_of_ne {d : String} (h : d ≠ "") : truthy (some d) = true := by
  rw [truthy, Bool.not_eq_true']
  cases hq : d.data.isEmpty
  · rfl
  · exact absurd (String.ext (by rw [List.isEmpty_iff.mp hq])) h

def emptySelW : World := { scene := { demoScene0 with selection := [] }, session := {}, log := [] }

def twoSelScene : Scene :=
  { nodes := [
      { name := "a", ntype := NodeType.transform },
      { name := "b", ntype := NodeType.transform }],
    selection := ["a", "b"] }

def twoSelW : World := { scene := twoSelScene, session := {}, log := [] }

/-- **C5, counterexample.**  With two transforms selected, `setup_geometry`
does not require "exactly one": it proceeds on the first selected
transform, duplicates it and emits no warning, refuting "occurs only when
exactly one transform node is selected". -/
theorem setup_two_selected_counterexample :
    lsSelTransforms twoSelW.scene = ["a", "b"] ∧
      (setup_geometry twoSelW).session.target_geo = some "a" ∧
      (setup_geometry twoSelW).session.duplicated_geo = some "a_split" ∧
      objExists (setup_geometry twoSelW).scene "a_split" = true ∧
      (setup_geometry twoSelW).log = [] := by
  decide

/-- **C5, amended.**  The Idle-to-GeometrySetup transition occurs whenever
at least one transform is selected (operating on the first selected
transform); with an empty selection `setup_geometry` emits exactly one
warning and changes nothing else, and with a non-empty selection it
records the target and the duplicate, creates the duplicate node and hides
the original, emitting no warning. -/
theorem setup_geometry_spec (w : World) :
    (lsSelTransforms w.scene = [] →
      setup_geometry w = warnW w "Please select a geometry object first!") ∧
    (∀ t ts, lsSelTransforms w.scene = t :: ts →
      (setup_geometry w).session =
          { w.session with target_geo := some t, duplicated_geo := some (t ++ "_split") } ∧
        objExists (setup_geometry w).scene (t ++ "_split") = true ∧
        (∀ nd ∈ (setup_geometry w).scene.nodes, nd.name = t → nd.visible = false) ∧
        (setup_geometry w).log = w.log) := by
  constructor
  · intro h
    unfold setup_geometry
    rw [h]
  · intro t ts h
    unfold setup_geometry
    rw [h]
    refine ⟨rfl, ?_, ?_, rfl⟩
    · rw [objExists_setNodeVis]
      simp [objExists, addNode, objExistsN_append, objExistsN]
    · intro nd hnd hname
      exact setNodeVis_visible hnd hname

/-- **C5, amended, witness.**  The empty-selection branch instantiated on a
scene with nothing selected, and the proceed branch on the demo scene. -/
theorem setup_geometry_spec_witness :
    lsSelTransforms emptySelW.scene = [] ∧
      setup_geometry emptySelW = warnW emptySelW "Please select a geometry object first!" ∧
      lsSelTransforms demoW0.scene = ["pCube1"] ∧
      objExists (setup_geometry demoW0).scene ("pCube1" ++ "_split") = true := by
  refine ⟨by decide, (setup_geometry_spec emptySelW).1 (by decide), by decide, ?_⟩
  exact ((setup_geometry_spec demoW0).2 "pCube1" [] (by decide)).2.1

/-! ## Claim C6 -/

/-- **C6.**  `execute_split` warns and does nothing else when no
curve-variation group exists; otherwise it sets the
`splitPolyWithCurveOperation` option variable (2 when the detach checkbox
is set, 1 otherwise, defaulting to detach), selects every curve-variation
group in the scene plus the duplicated geometry, and invokes the split
exactly once over that selection — the single `splitCall` event records
both the full selection and the option value in force. -/
theorem execute_split_spec (w : World) (uiDetach : Option Bool) :
    (lsType w.scene NodeType.curveVarGroup = [] →
      execute_split w uiDetach = warnW w "No projected curve found!") ∧
    (∀ d, lsType w.scene NodeType.curveVarGroup ≠ [] →
      w.session.duplicated_geo = some d → d ≠ "" → objExists w.scene d = true →
      (execute_split w uiDetach).scene.splitOpVar =
          some (if uiDetach.getD true then 2 else 1) ∧
        (execute_split w uiDetach).scene.selection =
          lsType w.scene NodeType.curveVarGroup ++ [d] ∧
        (execute_split w uiDetach).log = w.log ++
          [Event.splitCall (lsType w.scene NodeType.curveVarGroup ++ [d])
            (if uiDetach.getD true then 2 else 1)] ∧
        (execute_split w uiDetach).scene.nodes = w.scene.nodes ∧
        (execute_split w uiDetach).session = w.session) := by
  constructor
  · intro h
    unfold execute_split
    rw [h]
    rfl
  · intro d hne hd hdne hex
    have hfalse : (lsType w.scene NodeType.curveVarGroup).isEmpty = false := by
      cases hq : lsType w.scene NodeType.curveVarGroup with
      | nil => exact absurd hq hne
      | cons a l => rfl
    simp only [execute_split, hfalse, hd, Option.getD_some, Bool.false_eq_true,
      if_false]
    rw [if_pos]
    · exact ⟨rfl, rfl, rfl, rfl, rfl⟩
    · rw [Bool.and_eq_true]
      exact ⟨truthy_some_of_ne hdne, hex⟩

/-- **C6, witness.**  Instantiated on the demo run after Conversion: one
curve-variation group exists, the duplicate is `pCube1_split`, and the
split event carries the full selection and the detach option value 2. -/
theorem execute_split_spec_witness :
    lsType demoW4.scene NodeType.curveVarGroup = ["projCurve_01_varGroup"] ∧
      demoW4.session.duplicated_geo = some "pCube1_split" ∧
      (execute_split demoW4 none).scene.splitOpVar = some (if (none : Option Bool).getD true then 2 else 1) ∧
      (execute_split demoW4 none).scene.selection =
        lsType demoW4.scene NodeType.curveVarGroup ++ ["pCube1_split"] := by
  have h := (execute_split_spec demoW4 none).2 "pCube1_split"
    (by decide) (by decide) (by decide) (by decide)
  exact ⟨by decide, by decide, h.1, h.2.1⟩

/-! ## Claim C9 -/

theorem find?_append_of_none {l₁ l₂ : List α} {p : α → Bool} (h : l₁.find? p = none) :
    (l₁ ++ l₂).find? p = l₂.find? p := by
  induction l₁ with
  | nil => rfl
  | cons a l ih =>
    rw [List.find?_cons] at h
    rw [List.cons_append, List.find?_cons]
    cases hp : p a
    · rw [hp] at h
      exact ih h
    · rw [hp] at h
      exact Option.noConfusion h

/-- All observable scene state and the session are untouched by
`activate_paint_effects` except the paint-context flags and the selection. -/
theorem activate_paint_effects_obs (w : World) (p q : Bool) :
    (activate_paint_effects w p q).scene.nodes = w.scene.nodes ∧
      (activate_paint_effects w p q).scene.camOrtho = w.scene.camOrtho ∧
      (activate_paint_effects w p q).scene.camOrthoWidth = w.scene.camOrthoWidth ∧
      (activate_paint_effects w p q).scene.connections = w.scene.connections ∧
      (activate_paint_effects w p q).scene.splitOpVar = w.scene.splitOpVar ∧
      (activate_paint_effects w p q).session = w.session ∧
      (activate_paint_effects w p q).log = w.log := by
  unfold activate_paint_effects
  split <;> split <;> split <;> exact ⟨rfl, rfl, rfl, rfl, rfl, rfl, rfl⟩

theorem activate_paint_tool_eq (w : World) (p q : Bool) (g : String)
    (hg : w.session.target_geo = some g) (hgne : g ≠ "") :
    activate_paint_tool w p q =
      activate_paint_effects (create_temporary_plane (setup_orthographic_camera w)) p q := by
  unfold activate_paint_tool
  rw [hg, truthy_some_of_ne hgne]
  rfl

/-- **C9.**  During the GeometrySetup-to-PaintActive transition
(`activate_paint_tool`), the camera's orthographic width is set to `1.5`
times the maximum of the three axis extents of the target's world bounding
box, and the created temporary plane's width and height both equal that
orthographic width. -/
theorem ortho_width_and_plane_size (w : World) (p q : Bool) (g : String) (nd : Node)
    (b : Bbox)
    (hg : w.session.target_geo = some g) (hgne : g ≠ "")
    (hfind : findNode w.scene g = some nd) (hbb : nd.bbox = b)
    (hplane : findNode w.scene "ddSplit_tempPlane" = none) :
    (activate_paint_tool w p q).scene.camOrthoWidth =
        max (b.xmax - b.xmin) (max (b.ymax - b.ymin) (b.zmax - b.zmin)) * (3 / 2) ∧
      ∃ pl, findNode (activate_paint_tool w p q).scene "ddSplit_tempPlane" = some pl ∧
        pl.width = (activate_paint_tool w p q).scene.camOrthoWidth ∧
        pl.height = (activate_paint_tool w p q).scene.camOrthoWidth := by
  have hw : (setup_orthographic_camera w).scene.camOrthoWidth =
      max (b.xmax - b.xmin) (max (b.ymax - b.ymin) (b.zmax - b.zmin)) * (3 / 2) := by
    simp only [setup_orthographic_camera, hg, Option.getD_some, hfind, hbb]
  have heq := activate_paint_tool_eq w p q g hg hgne
  have hobs := activate_paint_effects_obs (create_temporary_plane (setup_orthographic_camera w)) p q
  have hnodes2 : (create_temporary_plane (setup_orthographic_camera w)).scene.nodes =
      (setup_orthographic_camera w).scene.nodes ++
        [{ name := "ddSplit_tempPlane", ntype := NodeType.transform,
           parent := some w.scene.camName, visible := false,
           width := (setup_orthographic_camera w).scene.camOrthoWidth,
           height := (setup_orthographic_camera w).scene.camOrthoWidth }] := rfl
  have hw2 : (create_temporary_plane (setup_orthographic_camera w)).scene.camOrthoWidth =
      (setup_orthographic_camera w).scene.camOrthoWidth := rfl
  have hwidth : (activate_paint_tool w p q).scene.camOrthoWidth =
      max (b.xmax - b.xmin) (max (b.ymax - b.ymin) (b.zmax - b.zmin)) * (3 / 2) := by
    rw [heq, hobs.2.2.1, hw2, hw]
  refine ⟨hwidth, ?_⟩
  refine ⟨{ name := "ddSplit_tempPlane", ntype := NodeType.transform,
            parent := some w.scene.camName, visible := false,
            width := (setup_orthographic_camera w).scene.camOrthoWidth,
            height := (setup_orthographic_camera w).scene.camOrthoWidth }, ?_, ?_, ?_⟩
  · rw [findNode, heq, hobs.1, hnodes2]
    have hsn : (setup_orthographic_camera w).scene.nodes = w.scene.nodes := rfl
    rw [hsn]
    rw [find?_append_of_none hplane]
    rfl
  · show (setup_orthographic_camera w).scene.camOrthoWidth =
      (activate_paint_tool w p q).scene.camOrthoWidth
    rw [hwidth, hw]
  · show (setup_orthographic_camera w).scene.camOrthoWidth =
      (activate_paint_tool w p q).scene.camOrthoWidth
    rw [hwidth, hw]

/-- **C9, witness.**  On the demo cube with bounding box `[0,0,0]-[2,1,1]`
the orthographic width becomes `max(2,1,1) * 1.5 = 3` and the plane is
created with width and height `3`. -/
theorem ortho_width_witness :
    demoW1.session.target_geo = some "pCube1" ∧
      (activate_paint_tool demoW1 true true).scene.camOrthoWidth = 3 ∧
      ∃ pl, findNode (activate_paint_tool demoW1 true true).scene "ddSplit_tempPlane" = some pl ∧
        pl.width = (activate_paint_tool demoW1 true true).scene.camOrthoWidth ∧
        pl.height = (activate_paint_tool demoW1 true true).scene.camOrthoWidth := by
  have h := ortho_width_and_plane_size demoW1 true true "pCube1"
    { name := "pCube1", ntype := NodeType.transform, visible := false,
      bbox := { xmin := 0, ymin := 0, zmin := 0, xmax := 2, ymax := 1, zmax := 1 } }
    { xmin := 0, ymin := 0, zmin := 0, xmax := 2, ymax := 1, zmax := 1 }
    (by decide) (by decide) (by decide) (by decide) (by decide)
  refine ⟨by decide, ?_, h.2⟩
  rw [h.1]
  norm_num

/-! ## Claim C8 -/

theorem activate_paint_effects_selection (w : World) (p q : Bool) :
    (activate_paint_effects w p q).scene.selection =
      (if truthy w.session.temp_plane then [w.session.temp_plane.getD ""]
       else w.scene.selection) := by
  unfold activate_paint_effects
  split <;> split <;> split <;> simp_all

/-- **C8.**  Soft failures never abort a stage and fall back to the
built-in defaults: a failed UI query during Conversion behaves exactly as
`curveSamples = 50`, `tolerance = 0.001`, `pointsOnEdges = False`,
`automatic = True`; a failed `detachEdges` query behaves as
`detachEdges = True`; a failed `keepHistory` query behaves as `False`; and
a failed preset load or tool-context configuration leaves every node,
camera attribute, selection, connection, session field and log entry of
Paint Activation identical to the fully-successful run. -/
theorem soft_failure_defaults :
    (∀ w : World, convert_and_project w none =
      convert_and_project w (some { curveSamples := 50, tolerance := 1 / 1000,
                                    pointsOnEdges := false, automatic := true })) ∧
      (∀ w : World, execute_split w none = execute_split w (some true)) ∧
      (∀ w : World, finish_and_cleanup w none = finish_and_cleanup w (some false)) ∧
      (∀ (w : World) (p q : Bool),
        (activate_paint_tool w p q).scene.nodes =
            (activate_paint_tool w true true).scene.nodes ∧
          (activate_paint_tool w p q).scene.camOrtho =
            (activate_paint_tool w true true).scene.camOrtho ∧
          (activate_paint_tool w p q).scene.camOrthoWidth =
            (activate_paint_tool w true true).scene.camOrthoWidth ∧
          (activate_paint_tool w p q).scene.selection =
            (activate_paint_tool w true true).scene.selection ∧
          (activate_paint_tool w p q).scene.connections =
            (activate_paint_tool w true true).scene.connections ∧
          (activate_paint_tool w p q).session = (activate_paint_tool w true true).session ∧
          (activate_paint_tool w p q).log = (activate_paint_tool w true true).log) := by
  refine ⟨fun w => rfl, fun w => rfl, fun w => rfl, ?_⟩
  intro w p q
  unfold activate_paint_tool
  split
  · exact ⟨rfl, rfl, rfl, rfl, rfl, rfl, rfl⟩
  · have h1 := activate_paint_effects_obs (create_temporary_plane (setup_orthographic_camera w)) p q
    have h2 := activate_paint_effects_obs (create_temporary_plane (setup_orthographic_camera w)) true true
    have s1 := activate_paint_effects_selection (create_temporary_plane (setup_orthographic_camera w)) p q
    have s2 := activate_paint_effects_selection (create_temporary_plane (setup_orthographic_camera w)) true true
    exact ⟨h1.1.trans h2.1.symm, h1.2.1.trans h2.2.1.symm,
      h1.2.2.1.trans h2.2.2.1.symm, s1.trans s2.symm,
      h1.2.2.2.1.trans h2.2.2.2.1.symm, h1.2.2.2.2.2.1.trans h2.2.2.2.2.2.1.symm,
      h1.2.2.2.2.2.2.trans h2.2.2.2.2.2.2.symm⟩

/-! ## Claim C2: specification functions for the conversion loop -/

/-- The circle name the loop gives the `i`-th stroke. -/
def convProj (p : Nat × String) : String := "projCurve_" ++ pad2 (p.1 + 1)

/-- The reference-curve names created for the valid strokes. -/
def convCurves (sc : Scene) (l : List (Nat × String)) : List String :=
  (l.filter fun p => strokeOk sc p.2).map convProj

/-- The stroke-to-circle wirings created for the valid strokes. -/
def convConns (sc : Scene) (l : List (Nat × String)) : List (String × String) :=
  (l.filter fun p => strokeOk sc p.2).map fun p =>
    (p.2 ++ ".outMainCurves[0]", convProj p ++ "Shape.create")

/-- The circle transform and its closed nurbs shape. -/
def convNodePair (p : Nat × String) : List Node :=
  [{ name := convProj p, ntype := NodeType.transform },
   { name := convProj p ++ "Shape", ntype := NodeType.nurbsCurve,
     parent := some (convProj p), closedCurve := true }]

/-- The nodes created by the conversion loop. -/
def convNodes (sc : Scene) (l : List (Nat × String)) : List Node :=
  (l.filter fun p => strokeOk sc p.2).flatMap convNodePair

/-- The events of the conversion loop: one per stroke, a circle creation
for a valid stroke and a warning for an invalid one. -/
def convLogs (sc : Scene) (l : List (Nat × String)) : List Event :=
  l.map fun p =>
    if strokeOk sc p.2 then Event.createCircle (convProj p)
    else Event.warn ("Paint Effects stroke " ++ toString (p.1 + 1) ++ " is invalid - skipping!")

def countCircles (es : List Event) : Nat :=
  (es.filter fun e => match e with | Event.createCircle _ => true | _ => false).length

def countProj (es : List Event) : Nat :=
  (es.filter fun e => match e with | Event.projCall _ _ _ _ _ _ => true | _ => false).length

def countWarn (es : List Event) : Nat :=
  (es.filter fun e => match e with | Event.warn _ => true | _ => false).length

theorem mem_of_mem_withIdx {p : Nat × α} :
    ∀ {n : Nat} {l : List α}, p ∈ withIdx n l → p.2 ∈ l := by
  intro n l
  induction l generalizing n with
  | nil => intro h; cases h
  | cons a as ih =>
    intro h
    rcases List.mem_cons.mp h with h | h
    · subst h; exact List.mem_cons_self _ _
    · exact List.mem_cons_of_mem _ (ih h)

theorem string_data_append (a b : String) : (a ++ b).data = a.data ++ b.data := by
  cases a; cases b; rfl

theorem strStartsWith_append (p t : String) : strStartsWith (p ++ t) p = true := by
  rw [strStartsWith, decide_eq_true_eq, string_data_append]
  exact List.prefix_append _ _

theorem strStartsWith_append_right {a : String} (p t : String)
    (h : strStartsWith a p = true) : strStartsWith (a ++ t) p = true := by
  rw [strStartsWith, decide_eq_true_eq, string_data_append]
  rw [strStartsWith, decide_eq_true_eq] at h
  exact h.trans (List.prefix_append _ _)

theorem convNodePair_fresh (p : Nat × String) :
    ∀ nd ∈ convNodePair p, strStartsWith nd.name "projCurve_" = true := by
  intro nd hnd
  rcases List.mem_cons.mp hnd with h | h
  · subst h; exact strStartsWith_append _ _
  · rcases List.mem_cons.mp h with h | h
    · subst h
      exact strStartsWith_append_right _ _ (strStartsWith_append _ _)
    · cases h

theorem objExistsN_append_fresh {base extra : List Node} {s : String}
    (hextra : ∀ nd ∈ extra, strStartsWith nd.name "projCurve_" = true)
    (hs : strStartsWith s "projCurve_" = false) :
    objExistsN (base ++ extra) s = objExistsN base s := by
  rw [objExistsN_append]
  have hfalse : objExistsN extra s = false := by
    apply Bool.eq_false_iff.mpr
    intro h
    obtain ⟨nd, hmem, hname, _⟩ := objExistsN_iff.mp h
    have := hextra nd hmem
    rw [hname, hs] at this
    cases this
  rw [hfalse, Bool.or_false]

theorem strokeOk_only_nodes {sc1 sc2 : Scene} (h : sc1.nodes = sc2.nodes) (s : String) :
    strokeOk sc1 s = strokeOk sc2 s := by
  rw [strokeOk, strokeOk, objExists, objExists, h]

/-- The session fields the conversion loop never writes. -/
def sessionRest (ss : Session) :=
  (ss.target_geo, ss.duplicated_geo, ss.temp_plane, ss.projection_curve,
   ss.pfx_stroke, ss.original_camera_state)

/-- The scene fields the conversion loop never writes. -/
def sceneRest (sc : Scene) :=
  (sc.camName, sc.camShape, sc.camOrtho, sc.camOrthoWidth, sc.selection,
   sc.splitOpVar, sc.paintPresetLoaded, sc.wireConfigured)

theorem strokeOk_nodes_append {sc' sc : Scene} {extra : List Node}
    (hn : sc'.nodes = sc.nodes ++ extra)
    (hextra : ∀ nd ∈ extra, strStartsWith nd.name "projCurve_" = true)
    {s : String} (hs : strStartsWith s "projCurve_" = false) :
    strokeOk sc' s = strokeOk sc s := by
  rw [strokeOk, strokeOk, objExists, objExists, hn, objExistsN_append_fresh hextra hs]

theorem conv_congr {sc1 sc2 : Scene} {l : List (Nat × String)}
    (h : ∀ p ∈ l, strokeOk sc1 p.2 = strokeOk sc2 p.2) :
    convCurves sc1 l = convCurves sc2 l ∧ convConns sc1 l = convConns sc2 l ∧
      convNodes sc1 l = convNodes sc2 l ∧ convLogs sc1 l = convLogs sc2 l := by
  have hf : l.filter (fun p => strokeOk sc1 p.2) = l.filter (fun p => strokeOk sc2 p.2) :=
    List.filter_congr h
  refine ⟨?_, ?_, ?_, ?_⟩
  · rw [convCurves, convCurves, hf]
  · rw [convConns, convConns, hf]
  · rw [convNodes, convNodes, hf]
  · rw [convLogs, convLogs]
    apply List.map_congr_left
    intro p hp
    rw [h p hp]

theorem guard_eq_not_strokeOk (sc : Scene) (s : String) :
    (s.data.isEmpty || !objExists sc s) = !strokeOk sc s := by
  simp [strokeOk, Bool.not_and, Bool.not_not]

theorem convertStroke_invalid {w : World} {i : Nat} {s : String}
    (hok : strokeOk w.scene s = false) :
    convertStroke w i s =
      warnW w ("Paint Effects stroke " ++ toString (i + 1) ++ " is invalid - skipping!") := by
  unfold convertStroke
  split
  · rfl
  · next h =>
    exfalso
    exact h (by rw [guard_eq_not_strokeOk, hok]; rfl)

theorem convertStroke_valid {w : World} {i : Nat} {s : String}
    (hok : strokeOk w.scene s = true) :
    (convertStroke w i s).scene.nodes = w.scene.nodes ++ convNodePair (i, s) ∧
      (convertStroke w i s).scene.connections = w.scene.connections ++
        [(s ++ ".outMainCurves[0]", convProj (i, s) ++ "Shape.create")] ∧
      (convertStroke w i s).session.projection_curves =
        w.session.projection_curves ++ [convProj (i, s)] ∧
      (convertStroke w i s).log = w.log ++ [Event.createCircle (convProj (i, s))] ∧
      sessionRest (convertStroke w i s).session = sessionRest w.session ∧
      sceneRest (convertStroke w i s).scene = sceneRest w.scene := by
  unfold convertStroke
  split
  · next h =>
    exfalso
    rw [guard_eq_not_strokeOk, hok] at h
    cases h
  · refine ⟨?_, rfl, rfl, rfl, rfl, rfl⟩
    show (w.scene.nodes ++ [_]) ++ [_] = w.scene.nodes ++ convNodePair (i, s)
    rw [List.append_assoc]
    rfl

theorem convNodes_cons_pos {sc : Scene} {p : Nat × String} {l : List (Nat × String)}
    (h : strokeOk sc p.2 = true) :
    convNodes sc (p :: l) = convNodePair p ++ convNodes sc l := by
  rw [convNodes, convNodes, List.filter_cons]
  simp [h]

theorem convNodes_cons_neg {sc : Scene} {p : Nat × String} {l : List (Nat × String)}
    (h : strokeOk sc p.2 = false) :
    convNodes sc (p :: l) = convNodes sc l := by
  rw [convNodes, convNodes, List.filter_cons]
  simp [h]

theorem convCurves_cons_pos {sc : Scene} {p : Nat × String} {l : List (Nat × String)}
    (h : strokeOk sc p.2 = true) :
    convCurves sc (p :: l) = convProj p :: convCurves sc l := by
  rw [convCurves, convCurves, List.filter_cons]
  simp [h]

theorem convCurves_cons_neg {sc : Scene} {p : Nat × String} {l : List (Nat × String)}
    (h : strokeOk sc p.2 = false) :
    convCurves sc (p :: l) = convCurves sc l := by
  rw [convCurves, convCurves, List.filter_cons]
  simp [h]

theorem convConns_cons_pos {sc : Scene} {p : Nat × String} {l : List (Nat × String)}
    (h : strokeOk sc p.2 = true) :
    convConns sc (p :: l) =
      (p.2 ++ ".outMainCurves[0]", convProj p ++ "Shape.create") :: convConns sc l := by
  rw [convConns, convConns, List.filter_cons]
  simp [h]

theorem convConns_cons_neg {sc : Scene} {p : Nat × String} {l : List (Nat × String)}
    (h : strokeOk sc p.2 = false) :
    convConns sc (p :: l) = convConns sc l := by
  rw [convConns, convConns, List.filter_cons]
  simp [h]

theorem convLogs_cons_pos {sc : Scene} {p : Nat × String} {l : List (Nat × String)}
    (h : strokeOk sc p.2 = true) :
    convLogs sc (p :: l) = Event.createCircle (convProj p) :: convLogs sc l := by
  rw [convLogs, convLogs, List.map_cons, h]
  rfl

theorem convLogs_cons_neg {sc : Scene} {p : Nat × String} {l : List (Nat × String)}
    (h : strokeOk sc p.2 = false) :
    convLogs sc (p :: l) =
      Event.warn ("Paint Effects stroke " ++ toString (p.1 + 1) ++ " is invalid - skipping!")
        :: convLogs sc l := by
  rw [convLogs, convLogs, List.map_cons, h]
  rfl

/-- Full characterization of the per-stroke loop of `convert_and_project`:
given that no enumerated stroke name collides with the `projCurve_` names
the loop creates, the loop appends exactly the specified nodes,
connections, tracked curves and events, and touches nothing else. -/
theorem convertStrokes_spec (l : List (Nat × String)) :
    ∀ w : World, (∀ p ∈ l, strStartsWith p.2 "projCurve_" = false) →
      (convertStrokes w l).scene.nodes = w.scene.nodes ++ convNodes w.scene l ∧
        (convertStrokes w l).scene.connections = w.scene.connections ++ convConns w.scene l ∧
        (convertStrokes w l).session.projection_curves =
          w.session.projection_curves ++ convCurves w.scene l ∧
        (convertStrokes w l).log = w.log ++ convLogs w.scene l ∧
        sessionRest (convertStrokes w l).session = sessionRest w.session ∧
        sceneRest (convertStrokes w l).scene = sceneRest w.scene := by
  induction l with
  | nil =>
    intro w _
    exact ⟨by simp [convertStrokes, convNodes], by simp [convertStrokes, convConns],
      by simp [convertStrokes, convCurves], by simp [convertStrokes, convLogs], rfl, rfl⟩
  | cons hd rest ih =>
    obtain ⟨i, s⟩ := hd
    intro w hfresh
    have hfr_s : strStartsWith s "projCurve_" = false := hfresh (i, s) (List.mem_cons_self _ _)
    have hfr_rest : ∀ p ∈ rest, strStartsWith p.2 "projCurve_" = false :=
      fun p hp => hfresh p (List.mem_cons_of_mem _ hp)
    have hstep : convertStrokes w ((i, s) :: rest) = convertStrokes (convertStroke w i s) rest :=
      rfl
    rw [hstep]
    by_cases hok : strokeOk w.scene s = true
    · obtain ⟨hn, hc, hpc, hl, hsr, hscr⟩ := @convertStroke_valid w i s hok
      obtain ⟨ihn, ihc, ihpc, ihl, ihsr, ihscr⟩ := ih (convertStroke w i s) hfr_rest
      have hcong : ∀ p ∈ rest, strokeOk (convertStroke w i s).scene p.2 = strokeOk w.scene p.2 :=
        fun p hp => strokeOk_nodes_append hn (convNodePair_fresh (i, s)) (hfr_rest p hp)
      obtain ⟨hc1, hc2, hc3, hc4⟩ := conv_congr hcong
      refine ⟨?_, ?_, ?_, ?_, ihsr.trans hsr, ihscr.trans hscr⟩
      · rw [ihn, hc3, hn, List.append_assoc, convNodes_cons_pos hok]
      · rw [ihc, hc2, hc, List.append_assoc, convConns_cons_pos hok]
        rfl
      · rw [ihpc, hc1, hpc, List.append_assoc, convCurves_cons_pos hok]
        rfl
      · rw [ihl, hc4, hl, List.append_assoc, convLogs_cons_pos hok]
        rfl
    · rw [Bool.not_eq_true] at hok
      rw [convertStroke_invalid hok]
      obtain ⟨ihn, ihc, ihpc, ihl, ihsr, ihscr⟩ :=
        ih (warnW w ("Paint Effects stroke " ++ toString (i + 1) ++ " is invalid - skipping!"))
          hfr_rest
      have hwsc : (warnW w ("Paint Effects stroke " ++ toString (i + 1)
          ++ " is invalid - skipping!")).scene = w.scene := rfl
      rw [hwsc] at ihn ihc ihpc ihscr
      refine ⟨?_, ?_, ?_, ?_, ihsr, ihscr⟩
      · rw [ihn, convNodes_cons_neg hok]
      · rw [ihc, convConns_cons_neg hok]
      · rw [ihpc, convCurves_cons_neg hok]
        rfl
      · rw [ihl, convLogs_cons_neg hok]
        show (w.log ++ [_]) ++ convLogs w.scene rest = _
        rw [List.append_assoc]
        rfl

theorem projectAll_spec (cs : List String) :
    ∀ (w : World) (s : ProjSettings),
      (projectAll w cs s).log = w.log ++ cs.map (fun c =>
        Event.projCall c (w.session.duplicated_geo.getD "") s.curveSamples s.tolerance
          s.pointsOnEdges s.automatic) ∧
        (projectAll w cs s).scene.nodes = w.scene.nodes ++ cs.map (fun c =>
          { name := c ++ "_varGroup", ntype := NodeType.curveVarGroup }) ∧
        (projectAll w cs s).scene.connections = w.scene.connections ∧
        (projectAll w cs s).session = w.session := by
  induction cs with
  | nil => intro w s; exact ⟨by simp [projectAll], by simp [projectAll], rfl, rfl⟩
  | cons c cs ih =>
    intro w s
    have hstep : projectAll w (c :: cs) s = projectAll (projectOne w s c) cs s := rfl
    rw [hstep]
    obtain ⟨ihl, ihn, ihc, ihs⟩ := ih (projectOne w s c) s
    have hone_sess : (projectOne w s c).session = w.session := rfl
    rw [hone_sess] at ihl
    refine ⟨?_, ?_, ihc, ihs.trans hone_sess⟩
    · rw [ihl]
      show (w.log ++ [_]) ++ _ = _
      rw [List.append_assoc]
      rfl
    · rw [ihn]
      show (w.scene.nodes ++ [_]) ++ _ = _
      rw [List.append_assoc]
      rfl

theorem countCircles_append (a b : List Event) :
    countCircles (a ++ b) = countCircles a + countCircles b := by
  simp [countCircles, List.filter_append]

theorem countProj_append (a b : List Event) :
    countProj (a ++ b) = countProj a + countProj b := by
  simp [countProj, List.filter_append]

theorem countWarn_append (a b : List Event) :
    countWarn (a ++ b) = countWarn a + countWarn b := by
  simp [countWarn, List.filter_append]

theorem countCircles_convLogs (sc : Scene) (l : List (Nat × String)) :
    countCircles (convLogs sc l) = (l.filter fun p => strokeOk sc p.2).length := by
  induction l with
  | nil => rfl
  | cons p l ih =>
    rw [List.filter_cons]
    by_cases h : strokeOk sc p.2 = true
    · rw [convLogs_cons_pos h]
      simp only [h, if_true, List.length_cons, ← ih]
      simp [countCircles, List.filter_cons]
    · rw [Bool.not_eq_true] at h
      rw [convLogs_cons_neg h]
      simp only [h, Bool.false_eq_true, if_false, ← ih]
      simp [countCircles, List.filter_cons]

theorem countProj_convLogs (sc : Scene) (l : List (Nat × String)) :
    countProj (convLogs sc l) = 0 := by
  induction l with
  | nil => rfl
  | cons p l ih =>
    by_cases h : strokeOk sc p.2 = true
    · rw [convLogs_cons_pos h]
      simpa [countProj, List.filter_cons] using ih
    · rw [Bool.not_eq_true] at h
      rw [convLogs_cons_neg h]
      simpa [countProj, List.filter_cons] using ih

theorem countWarn_convLogs (sc : Scene) (l : List (Nat × String)) :
    countWarn (convLogs sc l) + (l.filter fun p => strokeOk sc p.2).length = l.length := by
  induction l with
  | nil => rfl
  | cons p l ih =>
    rw [List.filter_cons]
    by_cases h : strokeOk sc p.2 = true
    · rw [convLogs_cons_pos h]
      simp only [h, if_true, List.length_cons]
      have hw : countWarn (Event.createCircle (convProj p) :: convLogs sc l) =
          countWarn (convLogs sc l) := by simp [countWarn, List.filter_cons]
      rw [hw]
      omega
    · rw [Bool.not_eq_true] at h
      rw [convLogs_cons_neg h]
      simp only [h, Bool.false_eq_true, if_false, List.length_cons]
      have hw : countWarn (Event.warn ("Paint Effects stroke " ++ toString (p.1 + 1)
            ++ " is invalid - skipping!") :: convLogs sc l) =
          countWarn (convLogs sc l) + 1 := by simp [countWarn, List.filter_cons]
      rw [hw]
      omega

theorem countCircles_projMap (cs : List String) (t : String) (s : ProjSettings) :
    countCircles (cs.map fun c => Event.projCall c t s.curveSamples s.tolerance
      s.pointsOnEdges s.automatic) = 0 := by
  induction cs with
  | nil => rfl
  | cons c cs ih => simp [countCircles, List.filter_cons]

theorem countProj_projMap (cs : List String) (t : String) (s : ProjSettings) :
    countProj (cs.map fun c => Event.projCall c t s.curveSamples s.tolerance
      s.pointsOnEdges s.automatic) = cs.length := by
  induction cs with
  | nil => rfl
  | cons c cs ih => simpa [countProj, List.filter_cons] using ih

theorem countWarn_projMap (cs : List String) (t : String) (s : ProjSettings) :
    countWarn (cs.map fun c => Event.projCall c t s.curveSamples s.tolerance
      s.pointsOnEdges s.automatic) = 0 := by
  induction cs with
  | nil => rfl
  | cons c cs ih => simp [countWarn, List.filter_cons]

theorem convNodes_fresh (sc : Scene) (l : List (Nat × String)) :
    ∀ nd ∈ convNodes sc l, strStartsWith nd.name "projCurve_" = true := by
  intro nd hnd
  rw [convNodes, List.mem_flatMap] at hnd
  obtain ⟨p, _, hmem⟩ := hnd
  exact convNodePair_fresh p nd hmem

theorem length_convCurves (sc : Scene) (l : List (Nat × String)) :
    (convCurves sc l).length = (l.filter fun p => strokeOk sc p.2).length := by
  rw [convCurves, List.length_map]

/-- **C2.**  One invocation of `convert_and_project` on a scene whose
stroke list contains `N` valid strokes (`strokeOk`) and any number of
invalid ones creates exactly `N` reference circles and issues exactly `N`
projection calls; the tracked reference curves are exactly the `N` circle
names `convCurves` prescribes (one closed circle per valid stroke), the
added connections wire each valid stroke's `outMainCurves[0]` into its own
circle's `create` input (`convConns`), and — as long as at least one valid
stroke exists — the invocation warns exactly once per invalid stroke.
Hypotheses: the duplicated geometry is tracked, exists, and no enumerated
stroke or the duplicate collides with the `projCurve_` namespace the loop
creates; the session starts with no tracked curves. -/
theorem conversion_counts (w : World) (ui : Option ProjSettings) (d : String)
    (hd : w.session.duplicated_geo = some d) (hdne : d ≠ "")
    (hdex : objExists w.scene d = true)
    (hdfresh : strStartsWith d "projCurve_" = false)
    (hfresh : ∀ s ∈ lsType w.scene NodeType.stroke, strStartsWith s "projCurve_" = false)
    (hsess : w.session.projection_curves = []) :
    countCircles ((convert_and_project w ui).log.drop w.log.length) =
        ((withIdx 0 (lsType w.scene NodeType.stroke)).filter
          fun p => strokeOk w.scene p.2).length ∧
      countProj ((convert_and_project w ui).log.drop w.log.length) =
        ((withIdx 0 (lsType w.scene NodeType.stroke)).filter
          fun p => strokeOk w.scene p.2).length ∧
      (convert_and_project w ui).session.projection_curves =
        convCurves w.scene (withIdx 0 (lsType w.scene NodeType.stroke)) ∧
      (convert_and_project w ui).scene.connections =
        w.scene.connections ++ convConns w.scene (withIdx 0 (lsType w.scene NodeType.stroke)) ∧
      (convCurves w.scene (withIdx 0 (lsType w.scene NodeType.stroke)) ≠ [] →
        countWarn ((convert_and_project w ui).log.drop w.log.length) +
            ((withIdx 0 (lsType w.scene NodeType.stroke)).filter
              fun p => strokeOk w.scene p.2).length =
          (withIdx 0 (lsType w.scene NodeType.stroke)).length) := by
  by_cases hE : (lsType w.scene NodeType.stroke).isEmpty = true
  · -- no stroke registered at all: warn once, nothing else
    have hnil : lsType w.scene NodeType.stroke = [] := List.isEmpty_iff.mp hE
    have hconv : convert_and_project w ui = warnW w "No Paint Effects stroke found!" := by
      unfold convert_and_project
      rw [hnil]
      rfl
    rw [hconv, hnil]
    have hdrop : (warnW w "No Paint Effects stroke found!").log.drop w.log.length =
        [Event.warn "No Paint Effects stroke found!"] := by
      show (w.log ++ _).drop w.log.length = _
      rw [List.drop_left]
    rw [hdrop]
    refine ⟨rfl, rfl, ?_, ?_, ?_⟩
    · show w.session.projection_curves = convCurves w.scene []
      rw [hsess]; rfl
    · show w.scene.connections = w.scene.connections ++ convConns w.scene []
      rw [convConns]; simp
    · intro hne
      exact absurd rfl hne
  · -- at least one stroke enumerated
    rw [Bool.not_eq_true] at hE
    set L := withIdx 0 (lsType w.scene NodeType.stroke) with hL
    have hfreshL : ∀ p ∈ L, strStartsWith p.2 "projCurve_" = false :=
      fun p hp => hfresh p.2 (mem_of_mem_withIdx hp)
    set w0 : World := { w with session := { w.session with projection_curves := [] } } with hw0
    obtain ⟨hn1, hc1, hpc1, hl1, hsr1, hscr1⟩ := convertStrokes_spec L w0 hfreshL
    have hw0sc : w0.scene = w.scene := rfl
    have hw0log : w0.log = w.log := rfl
    rw [hw0sc] at hn1 hc1 hpc1 hl1 hscr1
    rw [hw0log] at hl1
    have hpc1' : (convertStrokes w0 L).session.projection_curves = convCurves w.scene L := by
      rw [hpc1]; rfl
    simp only [sessionRest, Prod.mk.injEq] at hsr1
    have hdup1 : (convertStrokes w0 L).session.duplicated_geo = some d := by
      rw [hsr1.2.1]; exact hd
    have hconv : convert_and_project w ui =
        (let w1 := convertStrokes w0 L
         let w2 := if w1.session.projection_curves.isEmpty then w1
                   else { w1 with session := { w1.session with
                            projection_curve := some (w1.session.projection_curves.headD "") } }
         if !w2.session.projection_curves.isEmpty then
           if truthy w2.session.duplicated_geo &&
               objExists w2.scene (w2.session.duplicated_geo.getD "") then
             projectAll w2 w2.session.projection_curves (ui.getD defaultProj)
           else warnW w2 "Projection failed: invalid target geometry"
         else warnW w2 "No valid projection curves created!") := by
      simp only [convert_and_project]
      rw [hE]
      rfl
    -- the optional projection_curve head assignment changes nothing we observe
    set w1 := convertStrokes w0 L with hw1
    set w2 := (if w1.session.projection_curves.isEmpty then w1
               else { w1 with session := { w1.session with
                        projection_curve := some (w1.session.projection_curves.headD "") } })
      with hw2
    have hw2sc : w2.scene = w1.scene := by
      rw [hw2, apply_ite World.scene]
      exact ite_self _
    have hw2log : w2.log = w1.log := by
      rw [hw2, apply_ite World.log]
      exact ite_self _
    have hw2pc : w2.session.projection_curves = w1.session.projection_curves := by
      rw [hw2, apply_ite (fun x : World => x.session.projection_curves)]
      exact ite_self _
    have hw2dup : w2.session.duplicated_geo = some d := by
      rw [hw2, apply_ite (fun x : World => x.session.duplicated_geo)]
      rw [show ({ w1 with session := { w1.session with
            projection_curve := some (w1.session.projection_curves.headD "") } }
          : World).session.duplicated_geo = w1.session.duplicated_geo from rfl]
      rw [ite_self, hdup1]
    by_cases hV : convCurves w.scene L = []
    · -- every stroke invalid: one extra warning, zero circles and calls
      have hVf : (L.filter fun p => strokeOk w.scene p.2) = [] := by
        have := length_convCurves w.scene L
        rw [hV] at this
        exact List.length_eq_zero.mp this.symm
      have hEmpty : w2.session.projection_curves.isEmpty = true := by
        rw [hw2pc, hpc1', hV]
        rfl
      have hres : convert_and_project w ui = warnW w2 "No valid projection curves created!" := by
        rw [hconv]
        show (if !w2.session.projection_curves.isEmpty then _ else _) = _
        rw [hEmpty]
        rfl
      rw [hres]
      have hdrop : (warnW w2 "No valid projection curves created!").log.drop w.log.length =
          convLogs w.scene L ++ [Event.warn "No valid projection curves created!"] := by
        show (w2.log ++ _).drop w.log.length = _
        rw [hw2log, hl1, List.append_assoc, List.drop_left]
      rw [hdrop]
      refine ⟨?_, ?_, ?_, ?_, ?_⟩
      · rw [countCircles_append, countCircles_convLogs]
        simp [countCircles]
      · rw [countProj_append, countProj_convLogs]
        simp [countProj, hVf]
      · show w2.session.projection_curves = _
        rw [hw2pc, hpc1']
      · show w2.scene.connections = _
        rw [hw2sc, hc1]
      · intro hne
        exact absurd hV hne
    · -- at least one valid stroke: N projections, no extra warning
      have hEmpty : w2.session.projection_curves.isEmpty = false := by
        rw [hw2pc, hpc1']
        cases hq : convCurves w.scene L with
        | nil => exact absurd hq hV
        | cons a l => rfl
      have hguard : (truthy w2.session.duplicated_geo &&
          objExists w2.scene (w2.session.duplicated_geo.getD "")) = true := by
        rw [hw2dup, Bool.and_eq_true]
        refine ⟨truthy_some_of_ne hdne, ?_⟩
        show objExists w2.scene d = true
        rw [objExists, hw2sc, hn1, objExistsN_append_fresh (convNodes_fresh w.scene L) hdfresh]
        exact hdex
      have hres : convert_and_project w ui =
          projectAll w2 w2.session.projection_curves (ui.getD defaultProj) := by
        rw [hconv]
        simp only []
        rw [← hw2, hEmpty, hguard]
        rfl
      obtain ⟨hpl, hpn, hpconn, hps⟩ :=
        projectAll_spec w2.session.projection_curves w2 (ui.getD defaultProj)
      rw [hres]
      have hdrop : (projectAll w2 w2.session.projection_curves (ui.getD defaultProj)).log.drop
          w.log.length = convLogs w.scene L ++ (w2.session.projection_curves).map (fun c =>
            Event.projCall c (w2.session.duplicated_geo.getD "")
              (ui.getD defaultProj).curveSamples (ui.getD defaultProj).tolerance
              (ui.getD defaultProj).pointsOnEdges (ui.getD defaultProj).automatic) := by
        rw [hpl, hw2log, hl1, List.append_assoc, List.drop_left]
      rw [hdrop]
      have hcs : w2.session.projection_curves = convCurves w.scene L := by
        rw [hw2pc, hpc1']
      refine ⟨?_, ?_, ?_, ?_, ?_⟩
      · rw [countCircles_append, countCircles_convLogs, countCircles_projMap]
        omega
      · rw [countProj_append, countProj_convLogs, countProj_projMap, hcs, length_convCurves]
        omega
      · rw [hps, hcs]
      · rw [hpconn, hw2sc, hc1]
      · intro _
        rw [countWarn_append, countWarn_projMap, Nat.add_zero]
        exact countWarn_convLogs w.scene L

/-- The demo world just before Conversion, with one extra stroke entry
whose handle is stale (it fails the existence check). -/
def demoInvW : World :=
  { demoW3 with scene := { demoW3.scene with nodes := demoW3.scene.nodes ++
      [{ name := "strokeShapeGhost", ntype := NodeType.stroke, valid := false }] } }

/-- **C2, witness.**  On a scene with one valid stroke and one invalid
stroke entry, Conversion creates exactly one circle, tracks exactly the
prescribed curve list, and the valid-stroke count is 1 — the invalid entry
did not reduce it. -/
theorem conversion_counts_witness :
    demoInvW.session.duplicated_geo = some "pCube1_split" ∧
      lsType demoInvW.scene NodeType.stroke =
        ["strokeShapeDefaultPaint1", "strokeShapeGhost"] ∧
      countCircles ((convert_and_project demoInvW none).log.drop demoInvW.log.length) =
        ((withIdx 0 (lsType demoInvW.scene NodeType.stroke)).filter
          fun p => strokeOk demoInvW.scene p.2).length ∧
      (convert_and_project demoInvW none).session.projection_curves =
        convCurves demoInvW.scene (withIdx 0 (lsType demoInvW.scene NodeType.stroke)) ∧
      ((withIdx 0 (lsType demoInvW.scene NodeType.stroke)).filter
          fun p => strokeOk demoInvW.scene p.2).length = 1 := by
  have h := conversion_counts demoInvW none "pCube1_split"
    (by decide) (by decide) (by decide) (by decide) (by decide) (by decide)
  exact ⟨by decide, by decide, h.1, h.2.2.1, by decide⟩

/-! ## Claims C10 and C3: the scene-wide cleanup -/

theorem eq_of_name_eq_of_nodup {nodes : List Node}
    (h : (nodes.map Node.name).Nodup) {m nd : Node}
    (hm : m ∈ nodes) (hnd : nd ∈ nodes) (he : m.name = nd.name) : m = nd :=
  List.inj_on_of_nodup_map h hm hnd he

theorem find?_name_of_nodup {nodes : List Node} {nd : Node}
    (hnodup : (nodes.map Node.name).Nodup) (hmem : nd ∈ nodes) :
    nodes.find? (fun m => decide (m.name = nd.name)) = some nd := by
  induction nodes with
  | nil => cases hmem
  | cons a rest ih =>
    rw [List.map_cons, List.nodup_cons] at hnodup
    rw [List.find?_cons]
    cases hq : (decide (a.name = nd.name) : Bool)
    · rw [decide_eq_false_iff_not] at hq
      have hrest : nd ∈ rest := by
        rcases List.mem_cons.mp hmem with h | h
        · exact absurd (by rw [h]) hq
        · exact h
      exact ih hnodup.2 hrest
    · rw [decide_eq_true_eq] at hq
      rcases List.mem_cons.mp hmem with h | h
      · rw [h]
      · exact absurd (hq ▸ List.mem_map.mpr ⟨nd, h, rfl⟩) hnodup.1

theorem findNode_of_nodup {sc : Scene} {nd : Node}
    (hnodup : (sc.nodes.map Node.name).Nodup) (hmem : nd ∈ sc.nodes) :
    findNode sc nd.name = some nd :=
  find?_name_of_nodup hnodup hmem

theorem objExists_eq_of_nodes {sc1 sc2 : Scene} (h : sc1.nodes = sc2.nodes) (x : String) :
    objExists sc1 x = objExists sc2 x := by
  rw [objExists, objExists, h]

theorem finish_eq (w : World) (uiKeep : Option Bool) :
    finish_and_cleanup w uiKeep =
      guardedDeleteAll (historyStep (restore_camera_state w))
        (finishDels (restore_camera_state w).scene (restore_camera_state w).session
          (uiKeep.getD false)) := rfl

theorem mem_finishDels_of_splitGroups {sc : Scene} {ss : Session} {keep : Bool} {x : String}
    (h : x ∈ splitGroups sc) : x ∈ finishDels sc ss keep := by
  rw [finishDels]
  simp only [List.mem_append]
  exact Or.inl (Or.inl (Or.inl (Or.inl (Or.inl h))))

theorem mem_finishDels_of_stroke {sc : Scene} {ss : Session} {keep : Bool} {x : String}
    (h : x ∈ lsType sc NodeType.stroke) : x ∈ finishDels sc ss keep := by
  rw [finishDels]
  simp only [List.mem_append]
  exact Or.inl (Or.inl (Or.inl (Or.inl (Or.inr h))))

theorem mem_finishDels_of_pfxT {sc : Scene} {ss : Session} {keep : Bool} {x : String}
    (h : x ∈ pfxTransforms sc) : x ∈ finishDels sc ss keep := by
  rw [finishDels]
  simp only [List.mem_append]
  exact Or.inl (Or.inl (Or.inl (Or.inr h)))

theorem mem_finishDels_of_tracked {sc : Scene} {ss : Session} {keep : Bool} {x : String}
    (h : x ∈ trackedCurves sc ss) : x ∈ finishDels sc ss keep := by
  rw [finishDels]
  simp only [List.mem_append]
  exact Or.inl (Or.inl (Or.inr h))

theorem mem_finishDels_of_groups {sc : Scene} {ss : Session} {x : String}
    (h : x ∈ lsType sc NodeType.curveVarGroup) : x ∈ finishDels sc ss false := by
  rw [finishDels]
  simp only [List.mem_append]
  exact Or.inl (Or.inr (by rw [if_neg (by exact Bool.false_ne_true)]; exact h))

theorem mem_finishDels_of_plane {sc : Scene} {ss : Session} {keep : Bool}
    (h : truthy ss.temp_plane = true) : ss.temp_plane.getD "" ∈ finishDels sc ss keep := by
  rw [finishDels]
  simp only [List.mem_append]
  exact Or.inr (by rw [if_pos h]; exact List.mem_singleton.mpr rfl)

theorem mem_finishDels_elim {sc : Scene} {ss : Session} {keep : Bool} {x : String}
    (h : x ∈ finishDels sc ss keep) :
    x ∈ splitGroups sc ∨ x ∈ lsType sc NodeType.stroke ∨ x ∈ pfxTransforms sc ∨
      x ∈ trackedCurves sc ss ∨
      (keep = false ∧ x ∈ lsType sc NodeType.curveVarGroup) ∨
      (truthy ss.temp_plane = true ∧ x = ss.temp_plane.getD "") := by
  rw [finishDels] at h
  simp only [List.mem_append] at h
  rcases h with ((((h | h) | h) | h) | h) | h
  · exact Or.inl h
  · exact Or.inr (Or.inl h)
  · exact Or.inr (Or.inr (Or.inl h))
  · exact Or.inr (Or.inr (Or.inr (Or.inl h)))
  · split at h
    · cases h
    · next hk =>
      rw [Bool.not_eq_true] at hk
      exact Or.inr (Or.inr (Or.inr (Or.inr (Or.inl ⟨hk, h⟩))))
  · split at h
    · next ht => exact Or.inr (Or.inr (Or.inr (Or.inr (Or.inr ⟨ht, List.mem_singleton.mp h⟩))))
    · cases h

theorem mem_trackedCurves_elim {sc : Scene} {ss : Session} {x : String}
    (h : x ∈ trackedCurves sc ss) :
    x ∈ ss.projection_curves ∨ ss.projection_curve = some x := by
  rw [trackedCurves] at h
  split at h
  · exact Or.inl (List.mem_filter.mp h).1
  · split at h
    · next hcond =>
      right
      have hx := List.mem_singleton.mp h
      rw [Bool.and_eq_true] at hcond
      cases hpc : ss.projection_curve with
      | none =>
        rw [hpc] at hcond
        simp [truthy] at hcond
      | some y =>
        rw [hpc, Option.getD_some] at hx
        rw [hx]
    · cases h

/-- **C10.**  `finish_and_cleanup` deletes by scene-wide queries, not by
session-tracked references: every valid transform whose name ends in
`_split`, every valid stroke shape and its parent transform, and (when the
keep option is unset) every `curveVarGroup` disappear — whether or not the
session created them; and `execute_split` selects every `curveVarGroup`
in the scene, pre-existing ones included. -/
theorem cleanup_scene_wide (w : World) (uiKeep : Option Bool) (uiDetach : Option Bool)
    (hnodup : (w.scene.nodes.map Node.name).Nodup) :
    (∀ nd ∈ w.scene.nodes, nd.ntype = NodeType.transform → nd.valid = true →
      strEndsWith nd.name "_split" = true →
      objExists (finish_and_cleanup w uiKeep).scene nd.name = false) ∧
      (∀ nd ∈ w.scene.nodes, nd.ntype = NodeType.stroke → nd.valid = true →
        objExists (finish_and_cleanup w uiKeep).scene nd.name = false ∧
          ∀ p, nd.parent = some p →
            objExists (finish_and_cleanup w uiKeep).scene p = false) ∧
      (uiKeep.getD false = false →
        ∀ nd ∈ w.scene.nodes, nd.ntype = NodeType.curveVarGroup →
          objExists (finish_and_cleanup w uiKeep).scene nd.name = false) ∧
      (∀ d, lsType w.scene NodeType.curveVarGroup ≠ [] →
        w.session.duplicated_geo = some d → d ≠ "" → objExists w.scene d = true →
        ∀ nd ∈ w.scene.nodes, nd.ntype = NodeType.curveVarGroup →
          nd.name ∈ (execute_split w uiDetach).scene.selection) := by
  have hscn : (restore_camera_state w).scene.nodes = w.scene.nodes :=
    restore_camera_state_nodes w
  refine ⟨?_, ?_, ?_, ?_⟩
  · intro nd hmem ht hv hsuf
    rw [finish_eq]
    apply objExists_guardedDeleteAll_of_mem
    apply mem_finishDels_of_splitGroups
    rw [splitGroups]
    exact List.mem_filter.mpr ⟨name_mem_lsType (hscn ▸ hmem) ht, hsuf⟩
  · intro nd hmem ht hv
    constructor
    · rw [finish_eq]
      apply objExists_guardedDeleteAll_of_mem
      exact mem_finishDels_of_stroke (name_mem_lsType (hscn ▸ hmem) ht)
    · intro p hp
      rw [finish_eq]
      apply objExists_guardedDeleteAll_of_mem
      apply mem_finishDels_of_pfxT
      have hex : objExists (restore_camera_state w).scene nd.name = true := by
        rw [objExists_eq_of_nodes hscn]
        exact objExistsN_iff.mpr ⟨nd, hmem, rfl, hv⟩
      have hfind : findNode (restore_camera_state w).scene nd.name = some nd := by
        apply findNode_of_nodup
        · rw [hscn]; exact hnodup
        · rw [hscn]; exact hmem
      rw [pfxTransforms]
      apply List.mem_filterMap.mpr
      refine ⟨nd.name, name_mem_lsType (hscn ▸ hmem) ht, ?_⟩
      rw [if_pos hex, parentOf, hfind]
      exact hp
  · intro hkeep nd hmem ht
    rw [finish_eq, hkeep]
    apply objExists_guardedDeleteAll_of_mem
    exact mem_finishDels_of_groups (name_mem_lsType (hscn ▸ hmem) ht)
  · intro d hne hd hdne hex nd hmem ht
    have h := (execute_split_spec w uiDetach).2 d hne hd hdne hex
    rw [h.2.1]
    exact List.mem_append.mpr (Or.inl (name_mem_lsType hmem ht))

/-- A session run on a scene that already contains a `curveVarGroup`
(`oldVarGroup`) and a transform whose name happens to end in `_split`
(`legacy_split`) before the session starts. -/
def demoPreScene : Scene :=
  { demoScene0 with nodes := demoScene0.nodes ++
      [{ name := "oldVarGroup", ntype := NodeType.curveVarGroup },
       { name := "legacy_split", ntype := NodeType.transform }] }

def demoPreW0 : World := { scene := demoPreScene, session := {}, log := [] }

def demoPreW3 : World :=
  paintStroke (activate_paint_tool (setup_geometry demoPreW0) true true)
    "strokeDefaultPaint1" "strokeShapeDefaultPaint1"

def demoPreW4 : World := convert_and_project demoPreW3 none

/-- **C10, witness.**  On the pre-populated demo run: the pre-existing
`legacy_split` transform and `oldVarGroup` are removed by Finish (keep
unset), the stroke shape is removed, and `execute_split`'s selection
contains the pre-existing `oldVarGroup`. -/
theorem cleanup_scene_wide_witness :
    (demoPreW4.scene.nodes.map Node.name).Nodup ∧
      objExists (finish_and_cleanup demoPreW4 none).scene "legacy_split" = false ∧
      objExists (finish_and_cleanup demoPreW4 none).scene "strokeShapeDefaultPaint1" = false ∧
      objExists (finish_and_cleanup demoPreW4 none).scene "oldVarGroup" = false ∧
      "oldVarGroup" ∈ (execute_split demoPreW4 none).scene.selection := by
  have h := cleanup_scene_wide demoPreW4 none none (by decide)
  refine ⟨by decide, ?_, ?_, ?_, ?_⟩
  · exact h.1 { name := "legacy_split", ntype := NodeType.transform }
      (by decide) (by decide) (by decide) (by decide)
  · have hnode :
        ({ name := "strokeShapeDefaultPaint1", ntype := NodeType.stroke,
           parent := some "strokeDefaultPaint1" } : Node) ∈ demoPreW4.scene.nodes := by
      decide
    exact (h.2.1 _ hnode (by decide) (by decide)).1
  · exact h.2.2.1 (by decide) { name := "oldVarGroup", ntype := NodeType.curveVarGroup }
      (by decide) (by decide)
  · exact h.2.2.2 "pCube1_split" (by decide) (by decide) (by decide) (by decide)
      { name := "oldVarGroup", ntype := NodeType.curveVarGroup } (by decide) (by decide)

/-- **C3, counterexample.**  Before Conversion the scene already holds the
`curveVarGroup` `oldVarGroup`; Conversion produces exactly one further
group, `projCurve_01_varGroup`.  With "keep projected curves" set, Finish
leaves both groups in the scene, so the remaining groups are *not* exactly
the set produced by Conversion — the pre-existing `oldVarGroup` remains
too. -/
theorem finish_keep_counterexample :
    lsType demoPreW3.scene NodeType.curveVarGroup = ["oldVarGroup"] ∧
      lsType demoPreW4.scene NodeType.curveVarGroup =
        ["oldVarGroup", "projCurve_01_varGroup"] ∧
      lsType (finish_and_cleanup demoPreW4 (some true)).scene NodeType.curveVarGroup =
        ["oldVarGroup", "projCurve_01_varGroup"] := by
  decide

/-- **C3, amended.**  Every invocation of `finish_and_cleanup` removes the
temporary plane, all paint strokes (shapes and their parent transforms)
and all session-tracked reference curves, and deletes the construction
history of the duplicated geometry; the curve-variation groups in the
scene are removed exactly when the keep option is unset.  When the option
is set, *all* curve-variation groups of the scene remain — the set
produced by Conversion plus any group that already existed, so the
remaining groups equal Conversion's set only in a scene with no
pre-existing groups. -/
theorem finish_cleanup_spec (w : World) (uiKeep : Option Bool)
    (hnodup : (w.scene.nodes.map Node.name).Nodup) :
    (∀ pl, w.session.temp_plane = some pl → pl ≠ "" →
      objExists (finish_and_cleanup w uiKeep).scene pl = false) ∧
      (∀ nd ∈ w.scene.nodes, nd.ntype = NodeType.stroke → nd.valid = true →
        objExists (finish_and_cleanup w uiKeep).scene nd.name = false ∧
          ∀ p, nd.parent = some p →
            objExists (finish_and_cleanup w uiKeep).scene p = false) ∧
      (∀ c ∈ w.session.projection_curves,
        objExists (finish_and_cleanup w uiKeep).scene c = false) ∧
      (∀ dg, w.session.duplicated_geo = some dg → dg ≠ "" → objExists w.scene dg = true →
        Event.deleteHistory dg ∈ (finish_and_cleanup w uiKeep).log) ∧
      (uiKeep.getD false = false →
        ∀ nd ∈ w.scene.nodes, nd.ntype = NodeType.curveVarGroup →
          objExists (finish_and_cleanup w uiKeep).scene nd.name = false) ∧
      (uiKeep.getD false = true →
        ∀ nd ∈ w.scene.nodes, nd.ntype = NodeType.curveVarGroup →
          nd.valid = true → nd.parent = none →
          (∀ m ∈ w.scene.nodes, m.ntype = NodeType.stroke → m.parent ≠ some nd.name) →
          nd.name ∉ w.session.projection_curves →
          w.session.projection_curve ≠ some nd.name →
          w.session.temp_plane ≠ some nd.name →
          objExists (finish_and_cleanup w uiKeep).scene nd.name = true) := by
  have hscn : (restore_camera_state w).scene.nodes = w.scene.nodes :=
    restore_camera_state_nodes w
  have hss : (restore_camera_state w).session = w.session := restore_camera_state_session w
  refine ⟨?_, ?_, ?_, ?_, ?_, ?_⟩
  · -- temporary plane
    intro pl hpl hne
    rw [finish_eq]
    apply objExists_guardedDeleteAll_of_mem
    have hpl' : (restore_camera_state w).session.temp_plane = some pl := by rw [hss, hpl]
    have hmem := @mem_finishDels_of_plane (restore_camera_state w).scene
      (restore_camera_state w).session (uiKeep.getD false)
      (by rw [hpl']; exact truthy_some_of_ne hne)
    rw [hpl', Option.getD_some] at hmem
    exact hmem
  · -- strokes and their parent transforms
    intro nd hmem ht hv
    constructor
    · rw [finish_eq]
      apply objExists_guardedDeleteAll_of_mem
      exact mem_finishDels_of_stroke (name_mem_lsType (hscn ▸ hmem) ht)
    · intro p hp
      rw [finish_eq]
      apply objExists_guardedDeleteAll_of_mem
      apply mem_finishDels_of_pfxT
      have hex : objExists (restore_camera_state w).scene nd.name = true := by
        rw [objExists_eq_of_nodes hscn]
        exact objExistsN_iff.mpr ⟨nd, hmem, rfl, hv⟩
      have hfind : findNode (restore_camera_state w).scene nd.name = some nd := by
        apply findNode_of_nodup
        · rw [hscn]; exact hnodup
        · rw [hscn]; exact hmem
      rw [pfxTransforms]
      apply List.mem_filterMap.mpr
      refine ⟨nd.name, name_mem_lsType (hscn ▸ hmem) ht, ?_⟩
      rw [if_pos hex, parentOf, hfind]
      exact hp
  · -- tracked reference curves
    intro c hc
    rw [finish_eq]
    by_cases hex : objExists w.scene c = true
    · apply objExists_guardedDeleteAll_of_mem
      apply mem_finishDels_of_tracked
      have hne : (restore_camera_state w).session.projection_curves.isEmpty = false := by
        rw [hss]
        cases hq : w.session.projection_curves with
        | nil => rw [hq] at hc; cases hc
        | cons a l => rfl
      rw [trackedCurves, if_pos (by rw [hne]; rfl)]
      apply List.mem_filter.mpr
      refine ⟨by rw [hss]; exact hc, ?_⟩
      rw [objExists_eq_of_nodes hscn]
      exact hex
    · rw [Bool.not_eq_true] at hex
      apply objExists_guardedDeleteAll_of_false
      have hn2 : (historyStep (restore_camera_state w)).scene.nodes = w.scene.nodes := by
        rw [historyStep_scene (restore_camera_state w), hscn]
      rw [objExists_eq_of_nodes hn2]
      exact hex
  · -- construction history of the duplicate
    intro dg hdg hdne hex
    rw [finish_eq]
    obtain ⟨ds, hlog, _, _⟩ := guardedDeleteAll_log_spec
      (finishDels (restore_camera_state w).scene (restore_camera_state w).session
        (uiKeep.getD false)) (historyStep (restore_camera_state w))
    rw [hlog]
    apply List.mem_append.mpr
    left
    have hdup' : (restore_camera_state w).session.duplicated_geo = some dg := by
      rw [hss, hdg]
    have hcond : (truthy (restore_camera_state w).session.duplicated_geo &&
        objExists (restore_camera_state w).scene
          ((restore_camera_state w).session.duplicated_geo.getD "")) = true := by
      rw [hdup', Option.getD_some, Bool.and_eq_true]
      exact ⟨truthy_some_of_ne hdne, by rw [objExists_eq_of_nodes hscn]; exact hex⟩
    rw [historyStep, if_pos hcond]
    show Event.deleteHistory dg ∈ (restore_camera_state w).log ++
      [Event.deleteHistory ((restore_camera_state w).session.duplicated_geo.getD "")]
    rw [hdup', Option.getD_some]
    exact List.mem_append.mpr (Or.inr (List.mem_singleton.mpr rfl))
  · -- curve-variation groups removed when keep is unset
    intro hkeep nd hmem ht
    rw [finish_eq, hkeep]
    apply objExists_guardedDeleteAll_of_mem
    exact mem_finishDels_of_groups (name_mem_lsType (hscn ▸ hmem) ht)
  · -- all groups remain when keep is set
    intro hkeep nd hmem htg hv hroot hstrokes hnotcur hnotpc hnotpl
    rw [finish_eq, hkeep]
    have hw2n : (historyStep (restore_camera_state w)).scene.nodes = w.scene.nodes := by
      rw [historyStep_scene]; exact hscn
    have hndmem : nd ∈ (historyStep (restore_camera_state w)).scene.nodes := by
      rw [hw2n]; exact hmem
    have hnin : nd.name ∉ finishDels (restore_camera_state w).scene
        (restore_camera_state w).session true := by
      intro hin
      rcases mem_finishDels_elim hin with h | h | h | h | hk | hpl
      · rw [splitGroups] at h
        obtain ⟨m, hm, hmt, hmn⟩ := mem_lsType.mp (List.mem_filter.mp h).1
        rw [hscn] at hm
        have heq := eq_of_name_eq_of_nodup hnodup hm hmem hmn
        rw [heq, htg] at hmt
        cases hmt
      · obtain ⟨m, hm, hmt, hmn⟩ := mem_lsType.mp h
        rw [hscn] at hm
        have heq := eq_of_name_eq_of_nodup hnodup hm hmem hmn
        rw [heq, htg] at hmt
        cases hmt
      · rw [pfxTransforms] at h
        obtain ⟨s, hsmem, hsf⟩ := List.mem_filterMap.mp h
        split at hsf
        · obtain ⟨m, hm, hmt, hmn⟩ := mem_lsType.mp hsmem
          rw [parentOf] at hsf
          have hfind : findNode (restore_camera_state w).scene s = some m := by
            rw [← hmn]
            apply findNode_of_nodup
            · rw [hscn]; exact hnodup
            · exact hm
          rw [hfind] at hsf
          have hpar : m.parent = some nd.name := hsf
          rw [hscn] at hm
          exact hstrokes m hm hmt hpar
        · cases hsf
      · rcases mem_trackedCurves_elim h with h | h
        · rw [hss] at h
          exact hnotcur h
        · rw [hss] at h
          exact hnotpc h
      · cases hk.1
      · obtain ⟨ht, heq⟩ := hpl
        rw [hss] at ht heq
        cases hq : w.session.temp_plane with
        | none => rw [hq] at ht; simp [truthy] at ht
        | some y =>
          rw [hq, Option.getD_some] at heq
          exact hnotpl (by rw [hq, heq])
    have hsurv := mem_guardedDeleteAll_of_root _ hndmem hroot hnin
    exact objExistsN_iff.mpr ⟨nd, hsurv, rfl, hv⟩

/-- **C3, amended, witness.**  On the pre-populated demo run with the keep
option set: plane, tracked curve and strokes are gone, the history delete
on `pCube1_split` was issued, and the pre-existing group `oldVarGroup`
remains. -/
theorem finish_cleanup_spec_witness :
    demoPreW4.session.temp_plane = some "ddSplit_tempPlane" ∧
      objExists (finish_and_cleanup demoPreW4 (some true)).scene "ddSplit_tempPlane" = false ∧
      (∀ c ∈ demoPreW4.session.projection_curves,
        objExists (finish_and_cleanup demoPreW4 (some true)).scene c = false) ∧
      Event.deleteHistory "pCube1_split" ∈ (finish_and_cleanup demoPreW4 (some true)).log ∧
      objExists (finish_and_cleanup demoPreW4 (some true)).scene "oldVarGroup" = true := by
  have h := finish_cleanup_spec demoPreW4 (some true) (by decide)
  refine ⟨by decide, h.1 "ddSplit_tempPlane" (by decide) (by decide), h.2.2.1,
    h.2.2.2.1 "pCube1_split" (by decide) (by decide) (by decide), ?_⟩
  exact h.2.2.2.2.2 (by decide)
    { name := "oldVarGroup", ntype := NodeType.curveVarGroup }
    (by decide) (by decide) (by decide) (by decide) (by decide) (by decide) (by decide)
    (by decide)

end DDSplit
